import Mathlib

/-!
Verification of the CVParser core (src/CVParser/parsers.py, src/CVParser/utils.py)
against its natural-language specification.

The Python source is shallowly embedded: strings are Lean `String`s (processed as
`List Char`), Python's text primitives (`str.splitlines`, `str.strip`, regex
searches) are compiled by hand into executable Lean functions, and the external
libraries used by the source (dateparser, phonenumbers, pycountry, tldextract)
are passed in as an explicit `Libs` record of oracle functions, since their code
is not part of the repository.

Modelling conventions, noted once here:
* Unicode-sensitive predicates (`str.isalpha`, `\w`, `str.isupper`, `str.lower`)
  are modelled exactly on the ASCII and Latin-1 ranges, which cover the
  repository's domain (Italian/European résumé text); characters outside
  Latin-1 are treated as unclassified.  Python's `ß`-expanding `str.upper`
  is modelled characterwise.
* Python float comparison `sum/len >= 0.7` is modelled as `10*sum >= 7*len`;
  for the denominators that occur (line lengths at most 60) the two agree,
  because IEEE-754 division is correctly rounded and `float(0.7) < 7/10`.
* Regex searches are compiled to the specific pattern's leftmost-match
  semantics, documented at each definition.
-/

namespace CVParser

/-! ## Character classes (Python semantics on ASCII + Latin-1) -/

/-- ASCII decimal digit, Python `str.isdigit` / `\d` on ASCII. -/
def isDigitC (c : Char) : Bool := '0' ≤ c && c ≤ '9'

/-- ASCII uppercase letter. -/
def isAsciiUpperC (c : Char) : Bool := 'A' ≤ c && c ≤ 'Z'

/-- ASCII lowercase letter. -/
def isAsciiLowerC (c : Char) : Bool := 'a' ≤ c && c ≤ 'z'

/-- Uppercase letter as Python sees it, restricted to ASCII + Latin-1:
`A`-`Z`, `À`-`Þ` without the multiplication sign `×` (U+00D7). -/
def isUpperC (c : Char) : Bool :=
  isAsciiUpperC c || (0xC0 ≤ c.val && c.val ≤ 0xDE && c.val ≠ 0xD7)

/-- Lowercase letter as Python sees it, restricted to ASCII + Latin-1:
`a`-`z`, `ß`-`ÿ` without the division sign `÷` (U+00F7), plus `µ`, `ª`, `º`
which Python classifies as lowercase/cased-like letters. -/
def isLowerC (c : Char) : Bool :=
  isAsciiLowerC c || (0xDF ≤ c.val && c.val ≤ 0xFF && c.val ≠ 0xF7)
  || c.val = 0xB5 || c.val = 0xAA || c.val = 0xBA

/-- Letter (Python `str.isalpha`, `[^\W\d_]`) on ASCII + Latin-1. -/
def isAlphaC (c : Char) : Bool := isUpperC c || isLowerC c

/-- Python regex `\w` (word character): letter, digit or underscore. -/
def isWordC (c : Char) : Bool := isAlphaC c || isDigitC c || c = '_'

/-- The literal regex character range `À-ÿ` (U+00C0..U+00FF), which the source
uses inside several classes; note it includes `×` and `÷`. -/
def isLatin1RangeC (c : Char) : Bool := 0xC0 ≤ c.val && c.val ≤ 0xFF

/-- The literal regex character range `A-Za-zÀ-ÿ`. -/
def isLetterRangeC (c : Char) : Bool :=
  isAsciiUpperC c || isAsciiLowerC c || isLatin1RangeC c

/-- Characters Python's default `str.strip` removes (`str.isspace`). -/
def isSpaceC (c : Char) : Bool :=
  c = ' ' || c = '\t' || c = '\n' || (11 ≤ c.val && c.val ≤ 13)
  || (28 ≤ c.val && c.val ≤ 31) || c.val = 0x85 || c.val = 0xA0
  || c.val = 0x1680 || (0x2000 ≤ c.val && c.val ≤ 0x200A)
  || c.val = 0x2028 || c.val = 0x2029 || c.val = 0x202F
  || c.val = 0x205F || c.val = 0x3000

/-- Line separators recognised by Python `str.splitlines`. -/
def isLineSepC (c : Char) : Bool :=
  c = '\n' || c = '\r' || c.val = 11 || c.val = 12
  || c.val = 28 || c.val = 29 || c.val = 30
  || c.val = 0x85 || c.val = 0x2028 || c.val = 0x2029

/-- Python `str.lower` on ASCII + Latin-1 (`À`→`à` etc., `×` unchanged). -/
def toLowerC (c : Char) : Char :=
  if isAsciiUpperC c || (0xC0 ≤ c.val && c.val ≤ 0xDE && c.val ≠ 0xD7) then
    Char.ofNat (c.toNat + 32)
  else c

/-- Python `str.upper` on ASCII + Latin-1, characterwise (the length-changing
`ß`→`SS` expansion is not modelled; no claim depends on it). -/
def toUpperC (c : Char) : Char :=
  if isAsciiLowerC c || (0xE0 ≤ c.val && c.val ≤ 0xFE && c.val ≠ 0xF7) then
    Char.ofNat (c.toNat - 32)
  else c

/-! ## Basic list/string utilities mirroring Python primitives -/

/-- Build a `String` back from characters. -/
def ofL (cs : List Char) : String := ⟨cs⟩

/-- `str.splitlines`.  A trailing terminator yields no extra empty line;
`\r\n` counts as a single terminator. -/
def pySplitlines : List Char → List (List Char)
  | [] => []
  | [c] => if isLineSepC c then [[]] else [[c]]
  | c1 :: c2 :: rest =>
    if c1 = '\r' && c2 = '\n' then [] :: pySplitlines rest
    else if isLineSepC c1 then [] :: pySplitlines (c2 :: rest)
    else
      match pySplitlines (c2 :: rest) with
      | [] => [[c1]]
      | l :: ls => (c1 :: l) :: ls

/-- Drop a trailing run satisfying `p` (helper for `strip`). -/
def dropTrailing (p : Char → Bool) (cs : List Char) : List Char :=
  ((cs.reverse).dropWhile p).reverse

/-- Python `str.strip()` (default whitespace). -/
def pyStrip (cs : List Char) : List Char :=
  dropTrailing isSpaceC (cs.dropWhile isSpaceC)

/-- Python `str.strip(chars)` for an explicit character set. -/
def pyStripSet (set : List Char) (cs : List Char) : List Char :=
  dropTrailing (fun c => set.contains c) (cs.dropWhile (fun c => set.contains c))

/-- Python `str.rstrip(chars)`. -/
def pyRstripSet (set : List Char) (cs : List Char) : List Char :=
  dropTrailing (fun c => set.contains c) cs

/-- `"\n".join` on line lists. -/
def joinN : List (List Char) → List Char
  | [] => []
  | [l] => l
  | l :: ls => l ++ '\n' :: joinN ls

/-- Worker for `subRuns`: `inRun` says whether the previous character was in
a run (structural one-pass equivalent of replacing maximal runs). -/
def subRunsGo (p : Char → Bool) (r : Char) : Bool → List Char → List Char
  | _, [] => []
  | inRun, c :: rest =>
    if p c then
      if inRun then subRunsGo p r true rest
      else r :: subRunsGo p r true rest
    else c :: subRunsGo p r false rest

/-- `re.sub(p+, r, s)`: replace every maximal nonempty run of characters
satisfying `p` by the single character `r`. -/
def subRuns (p : Char → Bool) (r : Char) (cs : List Char) : List Char :=
  subRunsGo p r false cs

/-- Worker for `splitRuns` with the in-separator state. -/
def splitRunsGo (p : Char → Bool) : Bool → List Char → List (List Char)
  | _, [] => [[]]
  | inSep, c :: rest =>
    if p c then
      if inSep then splitRunsGo p true rest
      else [] :: splitRunsGo p true rest
    else
      match splitRunsGo p false rest with
      | [] => [[c]]
      | l :: ls => (c :: l) :: ls

/-- `re.split(p+, s)` keeping empty fields (Python `re.split` on a character
class): fields between maximal runs of `p`-characters. -/
def splitRuns (p : Char → Bool) (cs : List Char) : List (List Char) :=
  splitRunsGo p false cs

/-- Python `str.split()` (split on whitespace, no empty fields). -/
def pySplitWs (cs : List Char) : List (List Char) :=
  (splitRuns isSpaceC cs).filter (fun l => !l.isEmpty)

/-- `str.split(sep)` on a single character, keeping empty fields. -/
def splitOnC (sep : Char) : List Char → List (List Char)
  | [] => [[]]
  | c :: rest =>
    if c = sep then [] :: splitOnC sep rest
    else
      match splitOnC sep rest with
      | [] => [[c]]
      | l :: ls => (c :: l) :: ls

/-- Is `pat` an infix of `hay`? -/
def isSubL (pat hay : List Char) : Bool :=
  match hay with
  | [] => pat.isEmpty
  | _ :: t => pat.isPrefixOf hay || isSubL pat t

/-- Worker for `runsOf`: `cur` is the reversed run being accumulated. -/
def runsOfGo (p : Char → Bool) : List Char → List Char → List (List Char)
  | cur, [] => if cur.isEmpty then [] else [cur.reverse]
  | cur, c :: rest =>
    if p c then runsOfGo p (c :: cur) rest
    else if cur.isEmpty then runsOfGo p [] rest
    else cur.reverse :: runsOfGo p [] rest

/-- Maximal runs of characters satisfying `p` (regex `findall` for `p+`). -/
def runsOf (p : Char → Bool) (cs : List Char) : List (List Char) :=
  runsOfGo p [] cs

/-- Maximal `\w`-runs of the text.  A regex `\b<class>{m,n}\b` over word
characters matches exactly the maximal word runs of the right length and
content, because `\b` forbids word characters on either side. -/
def wordRuns (cs : List Char) : List (List Char) := runsOf isWordC cs

/-- Lowercase a character list (Python `str.lower` on ASCII + Latin-1). -/
def toLowerL (cs : List Char) : List Char := cs.map toLowerC

/-- Uppercase a character list. -/
def toUpperL (cs : List Char) : List Char := cs.map toUpperC

/-- Digits of a natural number, padded to width `w` (Python `f"{n:0wd}"`). -/
def padNat (w : Nat) (n : Nat) : List Char :=
  let ds := (Nat.toDigits 10 n)
  (List.replicate (w - ds.length) '0') ++ ds

/-- Numeric value of a digit list (Python `int`). -/
def natOfDigits (cs : List Char) : Nat :=
  cs.foldl (fun a c => a * 10 + (c.toNat - '0'.toNat)) 0

/-! ## utils.norm — the text normalizer

Source (utils.py:39-53):
remove zero-width space and BOM, turn `\r\n` into `\n`, collapse `[ \t]+`
runs to one space, strip every line, join with `\n`, strip the result. -/

/-- Zero-width space / BOM, removed first by `norm`. -/
def isZwC (c : Char) : Bool := c.val = 0x200B || c.val = 0xFEFF

/-- `s.replace("​","").replace("﻿","")`. -/
def removeZw (cs : List Char) : List Char := cs.filter (fun c => !isZwC c)

/-- `s.replace("\r\n","\n")` (left-to-right, non-overlapping). -/
def crlf : List Char → List Char
  | [] => []
  | [c] => [c]
  | c1 :: c2 :: rest =>
    if c1 = '\r' && c2 = '\n' then '\n' :: crlf rest
    else c1 :: crlf (c2 :: rest)

/-- `[ \t]` (horizontal whitespace collapsed by `norm`). -/
def isHTC (c : Char) : Bool := c = ' ' || c = '\t'

/-- `norm` on character lists. -/
def normL (cs : List Char) : List Char :=
  pyStrip (joinN (((pySplitlines (subRuns isHTC ' ' (crlf (removeZw cs))))).map pyStrip))

/-- utils.norm.  (The Python non-`str` guard is not representable: the Lean
function takes a `String`.) -/
def norm (s : String) : String := ofL (normL s.data)

/-! ## utils.is_noise and the privacy pattern -/

/-- Suffix of `hay` just after the first occurrence of `pat` (`pat` nonempty
in all uses). -/
def dropToAfter (pat : List Char) : List Char → Option (List Char)
  | [] => if pat.isEmpty then some [] else none
  | c :: t =>
    if pat.isPrefixOf (c :: t) then some ((c :: t).drop pat.length)
    else dropToAfter pat t

/-- The GDPR-consent pattern shared (up to greedy vs. lazy `.*`, which does
not change whether a search succeeds) by utils.is_noise
(`(autorizz\w*).*?(trattament\w*).*?(dati|personali)`, case-insensitive) and
parsers.extract_privacy (`(autorizz\w*).*(trattament\w*).*(dati|personali)`).
A search succeeds iff the line contains `autorizz`, then `trattament` at or
after its end, then `dati` or `personali` at or after that end; taking the
first occurrence at each step is complete because each step only needs the
earliest possible start.  `.` not matching `\n` is irrelevant: both callers
apply the pattern to single lines. -/
def privacyMatch (l : List Char) : Bool :=
  let s := toLowerL l
  match dropToAfter "autorizz".data s with
  | none => false
  | some r1 =>
    match dropToAfter "trattament".data r1 with
    | none => false
    | some r2 => isSubL "dati".data r2 || isSubL "personali".data r2

/-- utils.is_noise (utils.py:56-73): empty line, all-symbol line
(`re.fullmatch("[\W_]+")`, i.e. no letter and no digit), single-character
line, or a line matching the GDPR-consent pattern. -/
def is_noiseL (line : List Char) : Bool :=
  if line.isEmpty then true
  else
    let l := pyStrip line
    if !l.isEmpty && l.all (fun c => !(isAlphaC c || isDigitC c)) then true
    else if l.length ≤ 1 then true
    else privacyMatch l

/-- utils.is_noise on `String`s. -/
def is_noise (line : String) : Bool := is_noiseL line.data

/-! ## parsers._is_heading and parsers.detect_sections -/

/-- Continuation class `[\wÀ-ÿ'-]` of the heading word tokenizer. -/
def wordContC (c : Char) : Bool :=
  isWordC c || isLatin1RangeC c || c = '\'' || c = '-'

/-- Worker for `findWords`: `cur` is the reversed token in progress (empty
means not inside a token).  A character that ends a token cannot start a
new one, since the start class is contained in the continuation class. -/
def findWordsGo : List Char → List Char → List (List Char)
  | cur, [] => if cur.isEmpty then [] else [cur.reverse]
  | cur, c :: rest =>
    if cur.isEmpty then
      if isAlphaC c then findWordsGo [c] rest else findWordsGo [] rest
    else
      if wordContC c then findWordsGo (c :: cur) rest
      else cur.reverse :: findWordsGo [] rest

/-- `re.findall(r"[^\W\d_][\wÀ-ÿ'-]*", s)`: maximal-munch tokens starting at
a letter; `findall` resumes scanning after each match. -/
def findWords (cs : List Char) : List (List Char) := findWordsGo [] cs

/-- `re.search(r"\d{5,}", s)`: some maximal digit run has length at least 5. -/
def has5Digits (cs : List Char) : Bool :=
  (runsOf isDigitC cs).any (fun r => r.length ≥ 5)

/-- Python `str.isupper`: at least one cased character, and every cased
character uppercase (cased modelled as `isAlphaC`). -/
def pyIsUpperStr (cs : List Char) : Bool :=
  cs.any (fun c => isAlphaC c) && cs.all (fun c => !isAlphaC c || isUpperC c)

/-- parsers._is_heading (parsers.py:39-51).  Note the source accepts any
nonempty normalized line up to 60 characters (its own comment block at
parsers.py:56-62 says "2..60 char"). -/
def isHeadingL (line : List Char) : Bool :=
  let s := normL line
  if s.isEmpty || s.length > 60 then false
  else if s.getLast? = some ':' then false
  else if s.contains '@' || isSubL "://".data s || has5Digits s then false
  else
    let words := findWords s
    if words.isEmpty then false
    else
      let capCount :=
        (words.filter (fun w =>
          match w.head? with | some c => isUpperC c | none => false)).length
      pyIsUpperStr s || 10 * capCount ≥ 7 * words.length

/-- parsers._is_heading on `String`s. -/
def isHeading (line : String) : Bool := isHeadingL line.data

/-- Indices of accepted headings in detect_sections (parsers.py:72-79):
heading shape plus isolation, where a missing previous line (i = 0) counts
as blank but a missing next line does not. -/
def acceptedIdxs (lines : List (List Char)) : List Nat :=
  (List.range lines.length).filter (fun i =>
    isHeadingL (lines.getD i []) &&
    ((i == 0) || (pyStrip (lines.getD (i - 1) [])).isEmpty ||
     (decide (i + 1 < lines.length) && (pyStrip (lines.getD (i + 1) [])).isEmpty)))

/-- Python dict insertion `m[k] = v`: overwrite in place or append. -/
def dictUpsert (m : List (String × String)) (k v : String) :
    List (String × String) :=
  if m.any (fun p => p.1 == k) then
    m.map (fun p => if p.1 == k then (k, v) else p)
  else m ++ [(k, v)]

/-- The (title, chunk) pairs produced by the detect_sections loop
(parsers.py:84-91), in order, before empty-chunk filtering and dict
insertion. -/
def rawSections (lines : List (List Char)) : List Nat → List (String × String)
  | [] => []
  | i :: rest =>
    let e := match rest with | [] => lines.length | j :: _ => j
    let chunk := pyStrip (joinN ((lines.drop (i + 1)).take (e - (i + 1))))
    (ofL (normL (lines.getD i [])), ofL chunk) :: rawSections lines rest

/-- parsers.detect_sections (parsers.py:64-92). -/
def detect_sections (text : String) : List (String × String) :=
  let txt := normL text.data
  let lines := pySplitlines txt
  let idxs := acceptedIdxs lines
  if idxs.isEmpty then [("body", ofL txt)]
  else
    let sections :=
      ((rawSections lines idxs).filter (fun p => p.2 != "")).foldl
        (fun m p => dictUpsert m p.1 p.2) []
    if sections.isEmpty then [("body", ofL txt)] else sections

/-! ## Name inference (parsers.py:99-245) -/

/-- Modelled from the spec: diacritic folding, standing in for the external
`unidecode` library.  Characterwise on Latin-1 (identity on ASCII);
multi-character transliterations (`Æ`→`AE`, `ß`→`ss`, `Þ`→`Th`) are
approximated by their first letter.  All claim inputs are ASCII, where this
is exact. -/
def unidecodeC (c : Char) : Char :=
  let v := c.val
  if v < 0x80 then c
  else if v = 0xC7 then 'C' else if v = 0xE7 then 'c'
  else if v = 0xD1 then 'N' else if v = 0xF1 then 'n'
  else if v = 0xD0 then 'D' else if v = 0xF0 then 'd'
  else if v = 0xD7 then 'x' else if v = 0xF7 then '/'
  else if v = 0xDE then 'T' else if v = 0xFE then 't'
  else if v = 0xDF then 's'
  else if 0xC0 ≤ v && v ≤ 0xC6 then 'A'
  else if 0xC8 ≤ v && v ≤ 0xCB then 'E'
  else if 0xCC ≤ v && v ≤ 0xCF then 'I'
  else if 0xD2 ≤ v && v ≤ 0xD8 then 'O'
  else if 0xD9 ≤ v && v ≤ 0xDC then 'U'
  else if v = 0xDD then 'Y'
  else if 0xE0 ≤ v && v ≤ 0xE6 then 'a'
  else if 0xE8 ≤ v && v ≤ 0xEB then 'e'
  else if 0xEC ≤ v && v ≤ 0xEF then 'i'
  else if 0xF2 ≤ v && v ≤ 0xF8 then 'o'
  else if 0xF9 ≤ v && v ≤ 0xFC then 'u'
  else if v = 0xFD || v = 0xFF then 'y'
  else c

/-- Fold a character list through `unidecodeC`. -/
def unidecodeL (cs : List Char) : List Char := cs.map unidecodeC

/-- parsers._canonize_token: `unidecode(t).strip().lower()`. -/
def _canonize_token (t : List Char) : List Char :=
  toLowerL (pyStrip (unidecodeL t))

/-- parsers._tokenize_basic (parsers.py:105-110): unidecode + norm, drop
digits, split on `[.\-_\s]+`, keep alphabetic tokens of length ≥ 2. -/
def _tokenize_basic (s : List Char) : List (List Char) :=
  let u := (unidecodeL (normL s)).filter (fun c => !isDigitC c)
  (splitRuns (fun c => c = '.' || c = '-' || c = '_' || isSpaceC c) u).filter
    (fun p => !p.isEmpty && p.all isAlphaC && p.length ≥ 2)

/-- parsers._slug_tokens. -/
def _slug_tokens (s : List Char) : List (List Char) := (_tokenize_basic s).take 4

/-- Character class `[A-Za-z0-9\-_\.]` of the LinkedIn slug. -/
def slugClassC (c : Char) : Bool :=
  isAsciiUpperC c || isAsciiLowerC c || isDigitC c || c = '-' || c = '_' || c = '.'

/-- If the lowercase pattern `pat` is a case-insensitive prefix of `s`,
return the remainder of `s`. -/
def stripPrefixCI (pat s : List Char) : Option (List Char) :=
  match pat, s with
  | [], s => some s
  | _, [] => none
  | p :: ps, c :: cs => if toLowerC c = p then stripPrefixCI ps cs else none

/-- Leftmost match of `linkedin\.com/(?:in|pub)/([A-Za-z0-9\-_\.]+)`
(case-insensitive), returning the captured slug. -/
def linkedinSlugSearch : List Char → Option (List Char)
  | [] => none
  | c :: t =>
    match stripPrefixCI "linkedin.com/in/".data (c :: t) with
    | some rest =>
      let slug := rest.takeWhile slugClassC
      if slug.isEmpty then linkedinSlugSearch t else some slug
    | none =>
      match stripPrefixCI "linkedin.com/pub/".data (c :: t) with
      | some rest =>
        let slug := rest.takeWhile slugClassC
        if slug.isEmpty then linkedinSlugSearch t else some slug
      | none => linkedinSlugSearch t

/-- parsers._linkedin_tokens (parsers.py:115-122). -/
def _linkedin_tokens (url : String) : Option (List (List Char)) :=
  if url = "" then none
  else
    match linkedinSlugSearch url.data with
    | none => none
    | some slug =>
      let toks := _slug_tokens slug
      if toks.length ≥ 2 then some toks else none

/-- parsers._email_tokens (parsers.py:124-129). -/
def _email_tokens (email : String) : Option (List (List Char)) :=
  if email = "" || !email.data.contains '@' then none
  else
    let loc := email.data.takeWhile (fun c => c != '@')
    let toks := _slug_tokens loc
    if toks.length ≥ 2 then some toks else none

/-- Worker for `removeParens`; the fuel (initially the list length) is
structural and can never run out first, since every step consumes at least
one character. -/
def removeParensGo : Nat → List Char → List Char
  | 0, cs => cs
  | _ + 1, [] => []
  | fuel + 1, '(' :: rest =>
    (match rest.drop ((rest.takeWhile (fun c => c != ')' && c != '\n')).length) with
     | ')' :: after => ' ' :: removeParensGo fuel after
     | _ => '(' :: removeParensGo fuel rest)
  | fuel + 1, c :: rest => c :: removeParensGo fuel rest

/-- `re.sub(r"\(.*?\)", " ", s)`: each `(`-to-nearest-`)` group (with no
newline between) becomes one space; an unmatched `(` is kept. -/
def removeParens (cs : List Char) : List Char := removeParensGo cs.length cs

/-- Filler words stripped from filenames. -/
def _FILENAME_STOP : List String :=
  ["cv", "resume", "curriculum", "europass", "final", "draft", "copy"]

/-- `re.fullmatch(r"(19|20)\d{2}", p)`. -/
def isYearToken (p : List Char) : Bool :=
  p.length = 4 && p.all isDigitC &&
  ("19".data.isPrefixOf p || "20".data.isPrefixOf p)

/-- `re.fullmatch(r"v\d+(\.\d+)?", p, re.I)`. -/
def isVersionToken (p : List Char) : Bool :=
  match p with
  | [] => false
  | c :: rest =>
    (c = 'v' || c = 'V') &&
    (let ds := rest.takeWhile isDigitC
     !ds.isEmpty &&
     (match rest.drop ds.length with
      | [] => true
      | '.' :: ds2 => !ds2.isEmpty && ds2.all isDigitC
      | _ => false))

/-- parsers._filename_tokens (parsers.py:131-150). -/
def _filename_tokens (fn : String) : Option (List (List Char)) :=
  if fn = "" then none
  else
    let s0 := fn.data
    let s1 := if "fdp.".data.isPrefixOf (toLowerL s0).reverse
              then s0.take (s0.length - 4) else s0
    let s2 := removeParens s1
    let s3 := subRuns (fun c => c = '_' || c = '-') ' ' s2
    let parts := pySplitWs (unidecodeL (normL s3))
    let clean := parts.filter (fun p =>
      !_FILENAME_STOP.contains (ofL (toLowerL p)) &&
      !isYearToken (toLowerL p) && !isVersionToken (toLowerL p))
    let toks := (clean.filter (fun t => !t.isEmpty && t.all isAlphaC && t.length ≥ 2)).take 4
    if toks.length ≥ 2 then some toks else none

/-- parsers._looks_like_person. -/
def _looks_like_person (toks : List (List Char)) : Bool :=
  2 ≤ toks.length && toks.length ≤ 4 &&
  toks.all (fun t => !t.isEmpty && t.all isAlphaC)

/-- parsers._equivalent_tokens (parsers.py:160-170): canonical token sets,
nonempty, one a subset of the other. -/
def _equivalent_tokens (a b : List (List Char)) : Bool :=
  let A := a.map _canonize_token
  let B := b.map _canonize_token
  !A.isEmpty && !B.isEmpty &&
  (A.all (fun x => B.contains x) || B.all (fun x => A.contains x))

/-- Python `str.capitalize`: first character uppercased, rest lowered. -/
def pyCapitalize (t : List Char) : List Char :=
  match t with
  | [] => []
  | c :: rest => toUpperC c :: toLowerL rest

/-- `" ".join` and friends. -/
def joinSep (sep : Char) : List (List Char) → List Char
  | [] => []
  | [l] => l
  | l :: ls => l ++ sep :: joinSep sep ls

/-- parsers._titlecase_split (parsers.py:172-176).  (The empty-list case
would raise IndexError in Python; both callers guarantee ≥ 2 tokens.) -/
def _titlecase_split (toks : List (List Char)) : String × String :=
  let ts := toks.map pyCapitalize
  match ts with
  | [] => ("", "")
  | [a] => (ofL a, "")
  | [a, b] => (ofL a, ofL b)
  | a :: rest => (ofL a, ofL (joinSep ' ' rest))

/-- Layout block placeholder: infer_name receives the blocks argument but the
source's layout path is disabled (parsers.py:191 "Layout disattivato"), so
only its presence is modelled. -/
structure LayoutBlock where
  page : Nat
  text : String
deriving Repr, DecidableEq

/-- A name candidate: source tag plus token list. -/
structure Cand where
  src : String
  toks : List (List Char)
deriving Repr, DecidableEq

/-- Insert a candidate into the first group whose first member is
token-equivalent, else open a new group (parsers.py:211-221). -/
def placeInGroups (c : Cand) : List (List Cand) → List (List Cand)
  | [] => [[c]]
  | g :: rest =>
    match g with
    | [] => [c] :: rest
    | g0 :: _ =>
      if _equivalent_tokens c.toks g0.toks then (g ++ [c]) :: rest
      else g :: placeInGroups c rest

/-- parsers.infer_name group score: (distinct sources, has linkedin, has
email). -/
def groupScore (g : List Cand) : Nat × Nat × Nat :=
  let srcs := g.map Cand.src
  (srcs.dedup.length,
   if srcs.contains "linkedin" then 1 else 0,
   if srcs.contains "email" then 1 else 0)

/-- Lexicographic strict order on score triples. -/
def tripleLt (a b : Nat × Nat × Nat) : Bool :=
  a.1 < b.1 || (a.1 = b.1 && (a.2.1 < b.2.1 || (a.2.1 = b.2.1 && a.2.2 < b.2.2)))

/-- Python `max(groups, key=group_score)`: first maximum. -/
def maxByScore (g : List Cand) (gs : List (List Cand)) : List Cand :=
  gs.foldl (fun b g2 => if tripleLt (groupScore b) (groupScore g2) then g2 else b) g

/-- Python `min(lists, key=len)`: first minimum. -/
def minByLen (ls : List (List (List Char))) : List (List Char) :=
  match ls with
  | [] => []
  | l :: rest => rest.foldl (fun b x => if x.length < b.length then x else b) l

/-- parsers.infer_name (parsers.py:178-245).  `blocks` and `section_titles`
are accepted but unused, exactly as in the source (the layout path is
disabled); `section_titles` defaults to `None` in Python and is passed
explicitly here. -/
def infer_name (blocks : Option (List LayoutBlock)) (email linkedin filename : String)
    (section_titles : Option (List String)) : String × String :=
  let candidates : List Cand :=
    (match _linkedin_tokens linkedin with
     | some li => if _looks_like_person li then [⟨"linkedin", li⟩] else []
     | none => []) ++
    (match _email_tokens email with
     | some em => if _looks_like_person em then [⟨"email", em⟩] else []
     | none => []) ++
    (match _filename_tokens filename with
     | some fn => if _looks_like_person fn then [⟨"filename", fn⟩] else []
     | none => [])
  if candidates.isEmpty then ("", "")
  else
    let groups := candidates.foldl (fun gs c => placeInGroups c gs) []
    let best := match groups with
      | [] => []
      | g :: rest => maxByScore g rest
    if (best.map Cand.src).dedup.length ≥ 2 then
      _titlecase_split (minByLen (best.map Cand.toks))
    else
      match candidates.find? (fun c => c.src == "linkedin") with
      | some c => _titlecase_split c.toks
      | none =>
        match candidates.find? (fun c => c.src == "email") with
        | some c => _titlecase_split c.toks
        | none =>
          match candidates.find? (fun c => c.src == "filename") with
          | some c => _titlecase_split c.toks
          | none => ("", "")

/-! ## Data model (the source's nested dicts as structures) -/

/-- Address sub-record of ContactInfo. -/
structure Indirizzo where
  via : String
  citta : String
  cap : String
  provincia : String
  paese : String
deriving Repr, DecidableEq

/-- ContactInfo (parsers.extract_contacts output). -/
structure Contatti where
  indirizzo : Indirizzo
  telefono : String
  cellulare : String
  email : String
  linkedin : String
  sito_web : String
  github : String
deriving Repr, DecidableEq

/-- Personal data block of the internal record. -/
structure Anagrafica where
  nome : String
  cognome : String
  data_nascita : String
  luogo_nascita : String
  nazionalita : String
  sesso : String
  stato_civile : String
deriving Repr, DecidableEq

/-- One work-experience entry. -/
structure Esperienza where
  posizione : String
  azienda : String
  citta : String
  paese : String
  data_inizio : String
  data_fine : String
  descrizione : String
  responsabilita : List String
  risultati_ottenuti : List String
deriving Repr, DecidableEq

/-- One education entry. -/
structure Istruzione where
  titolo_studio : String
  istituto : String
  citta : String
  paese : String
  data_inizio : String
  data_fine : String
  voto : String
  descrizione : String
  tesi : String
deriving Repr, DecidableEq

/-- Technical-skills record. -/
structure CompetenzeTecniche where
  linguaggi_programmazione : List String
  framework : List String
  database : List String
  strumenti : List String
  metodologie : List String
  altre_competenze : List String
deriving Repr, DecidableEq

/-- One language entry. -/
structure Lingua where
  lingua : String
  livello_scritto : String
  livello_parlato : String
  certificazioni : List String
deriving Repr, DecidableEq

/-- Availability record (always empty in the source). -/
structure Disponibilita where
  trasferte : String
  trasferimento : String
  tipo_contratto_preferito : List String
deriving Repr, DecidableEq

/-- The orchestrator's InternalRecord (parsers.py:769-799). -/
structure InternalRecord where
  anagrafica : Anagrafica
  contatti : Contatti
  istruzione : List Istruzione
  esperienze_lavorative : List Esperienza
  competenze_tecniche : CompetenzeTecniche
  competenze_linguistiche : List Lingua
  competenze_trasversali : List String
  certificazioni : List String
  progetti : List String
  pubblicazioni : List String
  interessi : List String
  patente : List String
  autorizzazione_trattamento_dati : String
  disponibilita : Disponibilita
  meta_section_titles : List String
deriving Repr, DecidableEq

/-! ## External-library oracles

Modelled from the spec: the locale resolvers call the external libraries
dateparser, phonenumbers, pycountry and tldextract ("general-purpose
multilingual parsing libraries as black boxes", spec §2/§4.2), whose code is
not in the repository.  Each library call is an oracle field; theorems either
hold for every oracle or instantiate one explicitly. -/
structure Libs where
  /-- `dateparser.parse(s, settings)`: `some (year, month, day)` or `none`
  (None / exception / library absent). -/
  dateParse : String → Option (Nat × Nat × Nat)
  /-- `phonenumbers.PhoneNumberMatcher(text, None)` filtered to valid
  numbers and formatted E.164, in order of appearance. -/
  phoneMatches : String → List String
  /-- `phonenumbers.parse` + `region_code_for_number`: ISO alpha-2 region. -/
  phoneRegion : String → Option String
  /-- `pycountry.countries.get(alpha_2=x).name`. -/
  alpha2 : String → Option String
  /-- `pycountry.countries.get(alpha_3=x).name`. -/
  alpha3 : String → Option String
  /-- `pycountry.countries.lookup(x).name` (None models LookupError). -/
  lookup : String → Option String
  /-- `tldextract.extract(u).suffix`. -/
  tldSuffix : String → Option String

/-! ## utils: dedupe and the locale resolvers -/

/-- Python `str.lower` on a `String`. -/
def pyLowerStr (s : String) : String := ofL (toLowerL s.data)

/-- Worker for dedupe_keep_order with the already-seen key set. -/
def dedupeGo (seen : List String) : List String → List String
  | [] => []
  | x :: xs =>
    if seen.contains (pyLowerStr x) then dedupeGo seen xs
    else x :: dedupeGo (pyLowerStr x :: seen) xs

/-- utils.dedupe_keep_order (utils.py:76-92) at its default case-insensitive
key function (the only key used in the embedded call sites). -/
def dedupe_keep_order (items : List String) : List String := dedupeGo [] items

/-- `f"{y:04d}-{m:02d}-{d:02d}"` (utils._dt_to_iso). -/
def isoFmt (y m d : Nat) : List Char :=
  padNat 4 y ++ '-' :: padNat 2 m ++ '-' :: padNat 2 d

/-- Word boundary before the current position: previous character absent or
not a word character. -/
def wordB (prev : Option Char) : Bool :=
  match prev with
  | none => true
  | some c => !isWordC c

/-- Word boundary after a word character, given the remaining suffix. -/
def wordBAfter (rest : List Char) : Bool :=
  match rest with
  | [] => true
  | c :: _ => !isWordC c

/-- Leftmost-match driver: try the matcher at every position, with the
previous character supplied for word-boundary tests. -/
def scanBAux (f : Option Char → List Char → Option α) :
    Option Char → List Char → Option α
  | _, [] => none
  | prev, c :: cs =>
    match f prev (c :: cs) with
    | some a => some a
    | none => scanBAux f (some c) cs

/-- The date-separator class `[\/\-.]`. -/
def isSepDMY (c : Char) : Bool := c = '/' || c = '-' || c = '.'

/-- `(?:19|20)\d{2}` at the head: the year and the remaining suffix. -/
def yearAt : List Char → Option (Nat × List Char)
  | a :: b :: c :: d :: rest =>
    if ((a = '1' && b = '9') || (a = '2' && b = '0')) && isDigitC c && isDigitC d
    then some (natOfDigits [a, b, c, d], rest) else none
  | _ => none

/-- `X?\d` (one or two digits, a two-digit take constrained on its first
char): both greedy alternatives at the head, longest first. -/
def qDigitAlts (firstOk : Char → Bool) : List Char → List (Nat × List Char)
  | a :: b :: rest =>
    (if firstOk a && isDigitC a && isDigitC b then [(natOfDigits [a, b], rest)] else []) ++
    (if isDigitC a then [(natOfDigits [a], b :: rest)] else [])
  | [a] => if isDigitC a then [(natOfDigits [a], [])] else []
  | [] => []

/-- `\b((?:19|20)\d{2})[\/\-.]([01]?\d)[\/\-.]([0-3]?\d)\b` at one position. -/
def ymdAt (prev : Option Char) (s : List Char) : Option (Nat × Nat × Nat) :=
  if !wordB prev then none else
  match yearAt s with
  | none => none
  | some (y, r1) =>
    match r1 with
    | sep1 :: r2 =>
      if !isSepDMY sep1 then none else
      (qDigitAlts (fun c => c = '0' || c = '1') r2).findSome? (fun p =>
        match p.2 with
        | sep2 :: r4 =>
          if !isSepDMY sep2 then none else
          (qDigitAlts (fun c => '0' ≤ c && c ≤ '3') r4).findSome? (fun q =>
            if wordBAfter q.2 then some (y, p.1, q.1) else none)
        | [] => none)
    | [] => none

/-- `\b((?:19|20)\d{2})[\/\-.]([01]?\d)\b` at one position. -/
def ymAt (prev : Option Char) (s : List Char) : Option (Nat × Nat) :=
  if !wordB prev then none else
  match yearAt s with
  | none => none
  | some (y, r1) =>
    match r1 with
    | sep1 :: r2 =>
      if !isSepDMY sep1 then none else
      (qDigitAlts (fun c => c = '0' || c = '1') r2).findSome? (fun p =>
        if wordBAfter p.2 then some (y, p.1) else none)
    | [] => none

/-- `\b((?:19|20)\d{2})\b` at one position. -/
def yAt (prev : Option Char) (s : List Char) : Option Nat :=
  if !wordB prev then none else
  match yearAt s with
  | none => none
  | some (y, r1) => if wordBAfter r1 then some y else none

/-- utils.parse_date_any (utils.py:143-180): oracle first, then the three
regex fallbacks, finally the cleaned text itself. -/
def parse_date_any (L : Libs) (s0 : String) : String :=
  let s := normL s0.data
  if s.isEmpty then "" else
  match L.dateParse (ofL s) with
  | some (y, m, d) => ofL (isoFmt y m d)
  | none =>
    match scanBAux ymdAt none s with
    | some (y, mn, d) => ofL (isoFmt y mn d)
    | none =>
      match scanBAux ymAt none s with
      | some p => ofL (isoFmt p.1 p.2 1)
      | none =>
        match scanBAux yAt none s with
        | some y => ofL (isoFmt y 1 1)
        | none => ofL s

/-- The range separators of parse_range, in the pattern's alternation order
(`-`, `to`, `a`, `al`, `fino a`, `hasta`, `bis`, `à`), lowercase. -/
def rangeSeps : List (List Char) :=
  ["-".data, "to".data, "a".data, "al".data, "fino a".data,
   "hasta".data, "bis".data, "à".data]

/-- Leftmost match of `\s*(?:-|to|a|al|fino a|hasta|bis|à)\s*` as a splitter:
returns (left part, right part).  The separator literals start with
non-space characters, so the leftmost separator occurrence, extended over
the space runs on both sides, is the leftmost match. -/
def splitRangeGo (acc : List Char) : List Char → Option (List Char × List Char)
  | [] => none
  | c :: t =>
    match rangeSeps.findSome? (fun sep =>
        (stripPrefixCI sep (c :: t)).map (fun r => r)) with
    | some rest => some ((acc.dropWhile isSpaceC).reverse, rest.dropWhile isSpaceC)
    | none => splitRangeGo (c :: acc) t

/-- Case-insensitive `\b(kw)\b` at one position. -/
def kwAtB (kw : List Char) (prev : Option Char) (s : List Char) : Bool :=
  wordB prev &&
  (match stripPrefixCI kw s with
   | some rest => wordBAfter rest
   | none => false)

/-- Case-insensitive search for any of the keywords with word boundaries on
both sides (all keywords begin and end with word characters). -/
def kwSearchGo (kws : List (List Char)) : Option Char → List Char → Bool
  | _, [] => false
  | prev, c :: t => kws.any (fun k => kwAtB k prev (c :: t)) || kwSearchGo kws (some c) t

/-- Search driver for keyword alternation patterns. -/
def kwSearch (kws : List (List Char)) (cs : List Char) : Bool :=
  kwSearchGo kws none cs

/-- `\b(presente|current|oggi|now|attuale)\b` keywords. -/
def presenteKws : List (List Char) :=
  ["presente".data, "current".data, "oggi".data, "now".data, "attuale".data]

/-- utils.parse_range (utils.py:183-198). -/
def parse_range (L : Libs) (s0 : String) : String × String :=
  let s := (normL s0.data).map (fun c => if c = '—' || c = '–' then '-' else c)
  match splitRangeGo [] s with
  | some (startRaw, endRaw) =>
    if kwSearch presenteKws endRaw then (parse_date_any L (ofL startRaw), "")
    else (parse_date_any L (ofL startRaw), parse_date_any L (ofL endRaw))
  | none => (parse_date_any L (ofL s), "")

/-- utils.phone_candidates (utils.py:221-237): library matches, deduplicated
keeping order. -/
def phone_candidates (L : Libs) (text : String) : List String :=
  dedupe_keep_order (L.phoneMatches text)

/-- utils.country_from_phone (utils.py:240-257). -/
def country_from_phone (L : Libs) (e164 : String) : String :=
  match L.phoneRegion e164 with
  | some region =>
    if region != "" then
      match L.alpha2 region with
      | some n => n
      | none => ""
    else ""
  | none => ""

/-- utils.country_from_tld (utils.py:264-284). -/
def country_from_tld (L : Libs) (u : String) : String :=
  match L.tldSuffix u with
  | none => ""
  | some suffix =>
    if suffix = "" then ""
    else
      let cc := (splitOnC '.' suffix.data).getLastD []
      if cc.length = 2 then
        match L.alpha2 (ofL (toUpperL cc)) with
        | some n => n
        | none => ""
      else ""

/-- utils.normalize_country (utils.py:287-325): alpha-2, alpha-3, then a
punctuation-cleaned lookup; on failure the cleaned input itself. -/
def normalize_country (L : Libs) (noc : String) : String :=
  let s := normL noc.data
  if s.isEmpty then "" else
  match L.alpha2 (ofL (toUpperL s)) with
  | some n => n
  | none =>
    match L.alpha3 (ofL (toUpperL s)) with
    | some n => n
    | none =>
      let s2 := pyStrip (subRuns (fun c => !(isWordC c || c = ' ')) ' ' s)
      match L.lookup (ofL s2) with
      | some n => n
      | none => ofL s

/-- utils.country_from_text (utils.py:328-372): explicit ISO codes
(`\b[A-Z]{2,3}\b` = maximal word runs of 2-3 uppercase letters), then
two-word phrases, then single words. -/
def country_from_text (L : Libs) (text : String) : String :=
  let s := normL text.data
  if s.isEmpty then "" else
  match (wordRuns s).findSome? (fun r =>
      if r.length = 2 && r.all isAsciiUpperC then L.alpha2 (ofL r)
      else if r.length = 3 && r.all isAsciiUpperC then L.alpha3 (ofL r)
      else none) with
  | some n => n
  | none =>
    let words := runsOf isLetterRangeC s
    match (words.zip (words.drop 1)).findSome? (fun p =>
        L.lookup (ofL (p.1 ++ ' ' :: p.2))) with
    | some n => n
    | none =>
      match words.findSome? (fun w => L.lookup (ofL w)) with
      | some n => n
      | none => ""

/-! ## Contact extraction (parsers.py:253-396) -/

/-- The email-local/domain class `[\w\.-]`. -/
def emailClassC (c : Char) : Bool := isWordC c || c = '.' || c = '-'

/-- Domain part `[\w\.-]+\.\w+` right after `@`, with the regex's greedy
backtracking: the final `\.` sits at the last class-dot that is preceded by
at least one class character and followed by a word character; `\w+` then
extends maximally. -/
def emailDomain (rest : List Char) : Option (List Char) :=
  let R := rest.takeWhile emailClassC
  let idxs := (List.range R.length).filter (fun d =>
    R.getD d ' ' = '.' && decide (1 ≤ d) && isWordC (R.getD (d + 1) ' '))
  match idxs.getLast? with
  | none => none
  | some d =>
    let after := (R.drop (d + 1)).takeWhile isWordC
    some (R.take d ++ '.' :: after)

/-- `EMAIL_RX.search`: the first `@` with a class character before it and a
valid domain after it yields the leftmost match (class runs cannot cross an
`@`, so no later `@` can produce an earlier start). -/
def emailSearchGo (accRev : List Char) : List Char → Option (List Char)
  | [] => none
  | '@' :: rest =>
    let leftRun := (accRev.takeWhile emailClassC).reverse
    if leftRun.isEmpty then emailSearchGo ('@' :: accRev) rest
    else
      match emailDomain rest with
      | some dom => some (leftRun ++ '@' :: dom)
      | none => emailSearchGo ('@' :: accRev) rest
  | c :: rest => emailSearchGo (c :: accRev) rest

/-- `EMAIL_RX.search(...).group(0)`. -/
def emailSearch (cs : List Char) : Option (List Char) := emailSearchGo [] cs

/-- The negated class `[^\s,;]` of the social-URL tails. -/
def urlTailC (c : Char) : Bool := !(isSpaceC c || c = ',' || c = ';')

/-- `(https?://)?(www\.)?<domain>/[^\s,;]+` (LINKEDIN_RX / GITHUB_RX,
case-insensitive): find the leftmost domain occurrence with a nonempty tail
and extend the match left over the optional `www.` and `http(s)://`
prefixes.  Characters are returned in original case. -/
def socialUrlGo (pat : List Char) (accRev : List Char) :
    List Char → Option (List Char)
  | [] => none
  | c :: t =>
    match stripPrefixCI pat (c :: t) with
    | some rest =>
      let tail := rest.takeWhile urlTailC
      if tail.isEmpty then socialUrlGo pat (c :: accRev) t
      else
        let core := (c :: t).take pat.length ++ tail
        let wwwHit := (stripPrefixCI ".www".data accRev).isSome
        let pre2 := if wwwHit then (accRev.take 4).reverse else []
        let acc2 := if wwwHit then accRev.drop 4 else accRev
        let pre1 :=
          if (stripPrefixCI "//:sptth".data acc2).isSome then (acc2.take 8).reverse
          else if (stripPrefixCI "//:ptth".data acc2).isSome then (acc2.take 7).reverse
          else []
        some (pre1 ++ pre2 ++ core)
    | none => socialUrlGo pat (c :: accRev) t

/-- Search driver for LINKEDIN_RX / GITHUB_RX. -/
def socialUrlSearch (pat : List Char) (cs : List Char) : Option (List Char) :=
  socialUrlGo pat [] cs

/-- One match of `WEB_RX = (https?://[^\s]+|www\.[^\s]+)` at the head:
the matched text and the rest. -/
def webAt (s : List Char) : Option (List Char × List Char) :=
  let tryPre : List Char → Option Nat := fun pre =>
    match stripPrefixCI pre s with
    | some _ => some pre.length
    | none => none
  match tryPre "https://".data with
  | some n => webTail s n
  | none =>
    match tryPre "http://".data with
    | some n => webTail s n
    | none =>
      match tryPre "www.".data with
      | some n => webTail s n
      | none => none
where
  webTail (s : List Char) (n : Nat) : Option (List Char × List Char) :=
    let tail := (s.drop n).takeWhile (fun c => !isSpaceC c)
    if tail.isEmpty then none else some (s.take n ++ tail, s.drop (n + tail.length))

/-- `WEB_RX.finditer` worker; the fuel bounds the number of scan steps and
the initial fuel `cs.length` can never be exhausted first, since every step
consumes at least one character. -/
def webFindAllGo : Nat → List Char → List (List Char)
  | 0, _ => []
  | _, [] => []
  | fuel + 1, c :: t =>
    match webAt (c :: t) with
    | some (m, rest) => m :: webFindAllGo fuel rest
    | none => webFindAllGo fuel t

/-- `WEB_RX.finditer`: all non-overlapping matches left to right. -/
def webFindAll (cs : List Char) : List (List Char) := webFindAllGo cs.length cs

/-- `re.search(r"\d{2,}", s)`. -/
def has2Digits (cs : List Char) : Bool :=
  (runsOf isDigitC cs).any (fun r => r.length ≥ 2)

/-- The class `[a-zà-ÿ]` (ASCII lowercase plus the `à`-`ÿ` range). -/
def cityWordC (c : Char) : Bool :=
  isAsciiLowerC c || (0xE0 ≤ c.val && c.val ≤ 0xFF)

/-- One word `[A-Z][a-zà-ÿ]+` filling a whole token. -/
def cityWordOk (w : List Char) : Bool :=
  match w with
  | c :: rest => isAsciiUpperC c && !rest.isEmpty && rest.all cityWordC
  | [] => false

/-- `re.match(r"^([A-Z][a-zà-ÿ]+(?: [A-Z][a-zà-ÿ]+){0,2})$", s)`: one to
three such words joined by single spaces, spanning the whole string. -/
def cityWordsOk (s : List Char) : Bool :=
  let parts := splitOnC ' ' s
  1 ≤ parts.length && parts.length ≤ 3 && parts.all cityWordOk

/-- parsers._looks_like_city (parsers.py:272-281). -/
def _looks_like_city (line : List Char) : Option (List Char) :=
  let s := pyStrip line
  if s.contains '@' || isSubL "://".data s || has2Digits s then none
  else if cityWordsOk s then
    if 2 ≤ s.length && s.length ≤ 48 then some s else none
  else none

/-- First-token check `[A-ZÀ-Ý][a-zà-ÿ]+` of the address heuristic
(`re.match`, so a prefix of the token suffices). -/
def addrCapWordOk (t : List Char) : Bool :=
  match t with
  | c :: rest =>
    (isAsciiUpperC c || (0xC0 ≤ c.val && c.val ≤ 0xDD)) &&
    (match rest with
     | c2 :: _ => cityWordC c2
     | [] => false)
  | [] => false

/-- parsers._looks_like_address (parsers.py:258-270). -/
def _looks_like_address (line : List Char) : Bool :=
  let s := pyStripSet " ,;.".data line
  if !(8 ≤ s.length && s.length ≤ 120) then false
  else if s.contains ':' then false
  else
    let tokens := pySplitWs s
    let has_digits := tokens.any (fun t => t.any isDigitC)
    let has_cap := tokens.any addrCapWordOk
    let alphaWords := (tokens.filter (fun t => t.any isLetterRangeC)).length
    has_digits && has_cap && alphaWords ≥ 2

/-- The value class `[A-Za-zÀ-ÿ' -]` of the city label pattern. -/
def cityLblClassC (c : Char) : Bool :=
  isLetterRangeC c || c = '\'' || c = ' ' || c = '-'

/-- `\b(citt[aà]|city)\s*[:\-]\s*([A-Z][A-Za-zÀ-ÿ' -]{1,48})\b` (re.I) at one
position, returning group 2.  Under IGNORECASE `[A-Z]` matches both ASCII
cases; the trailing `\b` backtracks the greedy `{1,48}` to the largest take
whose last character differs in wordness from the following character. -/
def cityLabelAt (prev : Option Char) (s : List Char) : Option (List Char) :=
  if !wordB prev then none else
  match stripPrefixCI "citta".data s <|> stripPrefixCI "città".data s <|>
        stripPrefixCI "city".data s with
  | none => none
  | some r1 =>
    let r2 := r1.dropWhile isSpaceC
    match r2 with
    | [] => none
    | c :: r3 =>
      if !(c = ':' || c = '-') then none else
      let r4 := r3.dropWhile isSpaceC
      match r4 with
      | [] => none
      | c2 :: r5 =>
        if !(isAsciiUpperC c2 || isAsciiLowerC c2) then none else
        let run := (r5.takeWhile cityLblClassC).take 48
        match ((List.range run.length).reverse.map (· + 1)).find? (fun k =>
            let last := run.getD (k - 1) c2
            let next := (r5.drop k).head?
            (isWordC last) != (match next with
              | some c3 => isWordC c3
              | none => false)) with
        | some k => some (c2 :: run.take k)
        | none => none

/-- `re.sub(r"\s*\(.+?\)$", "", cand)`: if the string ends with `)`, remove
from the first `(` that has at least one non-newline character before the
final `)`, together with the spaces preceding it. -/
def parenScan (total : Nat) : Nat → List Char → Option Nat
  | _, [] => none
  | pos, c :: rest =>
    if c = '(' && pos + 3 ≤ total &&
       (rest.take (total - pos - 2)).length ≥ 1 &&
       !(rest.take (total - pos - 2)).contains '\n'
    then some pos
    else parenScan total (pos + 1) rest

/-- Apply the trailing-parenthetical removal. -/
def cleanTrailingParen (cs : List Char) : List Char :=
  if cs.getLast? = some ')' then
    match parenScan cs.length 0 cs with
    | some j =>
      let sp := ((cs.take j).reverse.takeWhile isSpaceC).length
      cs.take (j - sp)
    | none => cs
  else cs

/-- The labelish keywords of the street heuristic (parsers.py:388). -/
def labelishKws : List (List Char) :=
  ["paese".data, "nazionalita".data, "nazionalità".data, "data di nascita".data,
   "luogo di nascita".data, "sesso".data, "citta".data, "città".data,
   "indirizzo".data, "address".data, "email".data, "telefono".data, "phone".data]

/-- The work/education cutoff roots of the header zone (parsers.py:295). -/
def cutoffKws : List (List Char) :=
  ["experien".data, "employment".data, "impiego".data, "beruf".data,
   "lavor".data, "career".data, "history".data, "work".data,
   "educat".data, "formaz".data, "ausbild".data, "stud".data,
   "school".data, "univers".data, "degree".data, "training".data]

/-- Index of the first heading in the first 200 non-noise lines matching the
cutoff roots (parsers.py:296-300). -/
def findCutoff (all_lines : List (List Char)) : Option Nat :=
  (List.range (min all_lines.length 200)).find? (fun i =>
    isHeadingL (all_lines.getD i []) &&
    kwSearch cutoffKws (toLowerL (all_lines.getD i [])))

/-- First maximal word run of 4-6 digits (`\b(\d{4,6})\b`). -/
def first46Run (top : List Char) : Option (List Char) :=
  (wordRuns top).find? (fun r => 4 ≤ r.length && r.length ≤ 6 && r.all isDigitC)

/-- First maximal word run of exactly 5 digits (`\b(\d{5})\b`). -/
def first5Run (top : List Char) : Option (List Char) :=
  (wordRuns top).find? (fun r => r.length = 5 && r.all isDigitC)

/-- The TLD-priority loop of extract_contacts step 2.4. -/
def tldLoop (L : Libs) : List String → String
  | [] => ""
  | s :: rest =>
    if s != "" then
      let c := country_from_tld L s
      if c != "" then c else tldLoop L rest
    else tldLoop L rest

/-- The header zone of extract_contacts (step 2.1, parsers.py:291-301):
non-noise lines up to the cutoff heading, else the first 120. -/
def contactZone (text : String) : List (List Char) :=
  let txt := normL text.data
  let all_lines := (pySplitlines txt).filter (fun l => !is_noiseL l)
  let cutoff := findCutoff all_lines
  all_lines.take (match cutoff with | some c => c | none => 120)

/-- parsers.extract_contacts (parsers.py:284-396). -/
def extract_contacts (L : Libs) (text : String) : Contatti :=
  let lines := contactZone text
  let joined := joinN lines
  let email := match emailSearch joined with
    | some m => ofL m
    | none => ""
  let linkedin := match socialUrlSearch "linkedin.com/".data joined with
    | some u => if "http".data.isPrefixOf u then ofL u else "https://" ++ ofL u
    | none => ""
  let github := match socialUrlSearch "github.com/".data joined with
    | some u => if "http".data.isPrefixOf u then ofL u else "https://" ++ ofL u
    | none => ""
  let webs := (webFindAll joined).filter (fun w =>
    !isSubL "linkedin.com".data w && !isSubL "github.com".data w)
  let sito_web := match webs with
    | w0 :: _ => if "http".data.isPrefixOf w0 then ofL w0 else "https://" ++ ofL w0
    | [] => ""
  let phones := phone_candidates L (ofL joined)
  let telefono := phones.headD ""
  let cellulare := (phones.drop 1).headD ""
  let top := joinN (lines.take 80)
  let country0 := if telefono != "" then country_from_phone L telefono else ""
  let country1 := if country0 != "" then country0
    else tldLoop L [sito_web, email, linkedin, github]
  let country2 := if country1 != "" then country1
    else country_from_text L (ofL top)
  let paese := normalize_country L country2
  let cap := if pyLowerStr paese = "italy" then
      match first5Run top with
      | some r => ofL r
      | none => ""
    else
      match first46Run top with
      | some r =>
        if 1900 ≤ natOfDigits r && natOfDigits r ≤ 2099 then "" else ofL r
      | none => ""
  let city := match (lines.take 120).findSome? (fun l => scanBAux cityLabelAt none l) with
    | some cand => ofL (pyStrip (cleanTrailingParen (pyStrip cand)))
    | none =>
      match (lines.take 120).findSome? (fun l =>
        let s := pyStrip l
        if s.contains ':' then none
        else if s.length > 48 || (pySplitWs s).length > 3 then none
        else match _looks_like_city s with
          | some c =>
            let nc := normalize_country L (ofL c)
            if nc != "" && pyLowerStr nc = pyLowerStr (ofL c) then none
            else some (ofL c)
          | none => none) with
      | some c => c
      | none => ""
  let via := match (lines.take 120).find? (fun l =>
      !(l.contains ':' && kwSearch labelishKws l) && _looks_like_address l) with
    | some l => ofL (pyStripSet " ,;.".data l)
    | none => ""
  { indirizzo := { via := via, citta := city, cap := cap, provincia := "", paese := paese },
    telefono := telefono, cellulare := cellulare,
    email := email, linkedin := linkedin, sito_web := sito_web, github := github }

/-! ## Personal data block (parsers.py:399-519) -/

/-- One label alternative: literal words joined by `\s*` (greedy; complete
because the words start with non-space characters). -/
def matchLabelAlt : List (List Char) → List Char → Option (List Char)
  | [], s => some s
  | [w], s => stripPrefixCI w s
  | w :: ws, s =>
    match stripPrefixCI w s with
    | none => none
    | some r => matchLabelAlt ws (r.dropWhile isSpaceC)

/-- Leftmost label match (alternatives in pattern order at each position),
returning the suffix after the match end — the `re.split(lbl, l, 1)[-1]`
tail.  The label patterns carry no word boundaries. -/
def labelSearchGo (alts : List (List (List Char))) : List Char → Option (List Char)
  | [] => none
  | c :: t =>
    match alts.findSome? (fun alt => matchLabelAlt alt (c :: t)) with
    | some rest => some rest
    | none => labelSearchGo alts t

/-- `_LBL_DOB` alternatives. -/
def dobAlts : List (List (List Char)) :=
  [["data".data, "di".data, "nascita".data], ["date".data, "of".data, "birth".data],
   ["dob".data], ["geburtsdatum".data], ["fecha".data, "de".data, "nacimiento".data],
   ["date".data, "de".data, "naissance".data]]

/-- `_LBL_POB` alternatives. -/
def pobAlts : List (List (List Char)) :=
  [["luogo".data, "di".data, "nascita".data], ["place".data, "of".data, "birth".data],
   ["geburtsort".data], ["lugar".data, "de".data, "nacimiento".data],
   ["lieu".data, "de".data, "naissance".data]]

/-- `_LBL_NAT` alternatives (`nazionalit[aà]|nationality|nationalit[yéè]`
expanded in order). -/
def natAlts : List (List (List Char)) :=
  [["nazionalita".data], ["nazionalità".data], ["nationality".data],
   ["nationality".data], ["nationalité".data], ["nationalitè".data]]

/-- `_LBL_SEX` alternatives. -/
def sexAlts : List (List (List Char)) :=
  [["sesso".data], ["sex".data], ["genre".data], ["geschlecht".data], ["sexo".data]]

/-- `_LBL_MSTAT` alternatives. -/
def mstatAlts : List (List (List Char)) :=
  [["stato".data, "civile".data], ["marital".data, "status".data],
   ["familienstand".data], ["estado".data, "civil".data],
   ["situation".data, "familiale".data]]

/-- `re.sub(r"\s*\([^)]*\)\s*$", "", v)`: remove a trailing parenthetical
whose content has no `)`, with surrounding spaces; the removed `(` is the
first one after the last earlier `)`. -/
def cleanTailParen (cs : List Char) : List Char :=
  let rev := cs.reverse
  let sp := rev.takeWhile isSpaceC
  match rev.drop sp.length with
  | ')' :: _ =>
    let k := cs.length - sp.length - 1
    let before := cs.take k
    let tailSeg := (before.reverse.takeWhile (fun c => c != ')')).reverse
    match tailSeg.findIdx? (fun c => c = '(') with
    | some idx =>
      let j := before.length - tailSeg.length + idx
      let spb := ((cs.take j).reverse.takeWhile isSpaceC).length
      cs.take (j - spb)
    | none => cs
  | _ => cs

/-- parsers._clean_tail (parsers.py:410-415). -/
def _clean_tail (v : List Char) : List Char :=
  let v1 := normL v
  let v2 := match v1.dropWhile isSpaceC with
    | c :: rest =>
      if c = ':' || c = '-' || c = '–' || c = '—' then rest.dropWhile isSpaceC
      else v1
    | [] => v1
  pyStripSet " ,;:|".data (cleanTailParen v2)

/-- Word boundary between two optional characters. -/
def boundary (prev cur : Option Char) : Bool :=
  (match prev with | some c => isWordC c | none => false) !=
  (match cur with | some c => isWordC c | none => false)

/-- `\b\d{1,2}[\/\-.]\d{1,2}[\/\-.]\d{2,4}\b` at one position (group 0).
With the boundaries, each digit group must coincide with a maximal digit
run of the allowed length. -/
def fdt1At (prev : Option Char) (s : List Char) : Option (List Char) :=
  if !wordB prev then none else
  let r1 := s.takeWhile isDigitC
  if !(1 ≤ r1.length && r1.length ≤ 2) then none else
  match s.drop r1.length with
  | sep1 :: t1 =>
    if !isSepDMY sep1 then none else
    let r2 := t1.takeWhile isDigitC
    if !(1 ≤ r2.length && r2.length ≤ 2) then none else
    match t1.drop r2.length with
    | sep2 :: t2 =>
      if !isSepDMY sep2 then none else
      let r3 := t2.takeWhile isDigitC
      if 2 ≤ r3.length && r3.length ≤ 4 && wordBAfter (t2.drop r3.length) then
        some (r1 ++ sep1 :: r2 ++ sep2 :: r3)
      else none
    | [] => none
  | [] => none

/-- `\b\d{1,2}[\/\-.]\d{4}\b` at one position (group 0). -/
def fdt2At (prev : Option Char) (s : List Char) : Option (List Char) :=
  if !wordB prev then none else
  let r1 := s.takeWhile isDigitC
  if !(1 ≤ r1.length && r1.length ≤ 2) then none else
  match s.drop r1.length with
  | sep1 :: t1 =>
    if !isSepDMY sep1 then none else
    let r2 := t1.takeWhile isDigitC
    if r2.length = 4 && wordBAfter (t1.drop 4) then some (r1 ++ sep1 :: r2)
    else none
  | [] => none

/-- `\b[A-Za-zÀ-ÿ]{m,n}\s+\d{4}\b` at one position (group 0), parametrised
by the letter-count range (3-15 in `_first_date_token`, 3-9 in the
experience range pattern). -/
def monthYearAt (lo hi : Nat) (prev : Option Char) (s : List Char) :
    Option (List Char × List Char) :=
  let run := s.takeWhile isLetterRangeC
  if run.isEmpty then none else
  if !(lo ≤ run.length && run.length ≤ hi) then none else
  if !boundary prev s.head? then none else
  let r1 := s.drop run.length
  let sps := r1.takeWhile isSpaceC
  if sps.isEmpty then none else
  let r2 := r1.drop sps.length
  let ds := r2.takeWhile isDigitC
  if ds.length = 4 && wordBAfter (r2.drop 4) then
    some (run ++ sps ++ ds, r2.drop 4)
  else none

/-- parsers._first_date_token (parsers.py:417-428). -/
def _first_date_token (s0 : List Char) : List Char :=
  let s := normL s0
  match scanBAux fdt1At none s with
  | some m => m
  | none =>
    match scanBAux fdt2At none s with
    | some m => m
    | none =>
      match scanBAux (monthYearAt 3 15) none s with
      | some p => p.1
      | none =>
        match scanBAux yAt none s with
        | some y => padNat 4 y
        | none => []

/-- parsers._format_date_it (parsers.py:445-450). -/
def _format_date_it (s : List Char) : List Char :=
  match s with
  | [a, b, c, d, '-', e, f, '-', g, h] =>
    if [a, b, c, d].all isDigitC && [e, f].all isDigitC && [g, h].all isDigitC then
      [g, h, '/', e, f, '/', a, b, c, d]
    else s
  | _ => s

/-- parsers._normalize_sex_minimal (parsers.py:452-467). -/
def _normalize_sex_minimal (val : List Char) : List Char :=
  let s := normL val
  match s.find? isLetterRangeC with
  | none => s
  | some c =>
    if toLowerC c = 'f' then ['F']
    else if toLowerC c = 'm' then ['M']
    else s

/-- parsers._pick_after_label (parsers.py:430-443): `Label: value` on the
same line, else the next non-noise line; otherwise keep scanning. -/
def _pick_after_label (alts : List (List (List Char))) :
    List (List Char) → Option (List Char)
  | [] => none
  | l :: rest =>
    match labelSearchGo alts l with
    | none => _pick_after_label alts rest
    | some tl =>
      let tail := _clean_tail tl
      if !tail.isEmpty then some tail
      else
        match rest.head? with
        | some nxt0 =>
          let nxt := _clean_tail nxt0
          if !nxt.isEmpty && !is_noiseL nxt then some nxt
          else _pick_after_label alts rest
        | none => _pick_after_label alts rest

/-- Prefix of the text before the first boundary-delimited keyword match
(`re.split(kw-pattern, s, 1)[0]`). -/
def kwSplitBeforeGo (kws : List (List Char)) (prev : Option Char) :
    List Char → List Char
  | [] => []
  | c :: t =>
    if kws.any (fun k => kwAtB k prev (c :: t)) then []
    else c :: kwSplitBeforeGo kws (some c) t

/-- The personal-block record (the dict returned at parsers.py:513-519). -/
structure PersonalBlock where
  data_nascita : String
  luogo_nascita : String
  nazionalita : String
  sesso : String
  stato_civile : String
deriving Repr, DecidableEq

/-- parsers.extract_personal_block (parsers.py:469-519). -/
def extract_personal_block (L : Libs) (text : String) : PersonalBlock :=
  let lines := (pySplitlines (normL text.data)).filter (fun l => !is_noiseL l)
  let dob := match _pick_after_label dobAlts lines with
    | none => ""
    | some dob_raw =>
      let t0 := _first_date_token dob_raw
      let token := if t0.isEmpty then dob_raw else t0
      ofL (_format_date_it (parse_date_any L (ofL token)).data)
  let pob := match _pick_after_label pobAlts lines with
    | none => ""
    | some raw0 =>
      let raw1 := _clean_tail raw0
      let raw2 := kwSplitBeforeGo
        ["paese".data, "country".data, "state".data, "nation".data,
         "citta".data, "città".data, "city".data] none raw1
      ofL (pyStripSet " ,;".data raw2)
  let nat := match _pick_after_label natAlts lines with
    | none => ""
    | some raw0 =>
      let raw1 := _clean_tail raw0
      let raw2 := kwSplitBeforeGo
        ["data".data, "luogo".data, "born".data, "birth".data,
         "citta".data, "città".data, "city".data, "paese".data, "country".data]
        none raw1
      ofL (pyStripSet " ,;".data raw2)
  let sex := match _pick_after_label sexAlts lines with
    | none => ""
    | some sex_raw => ofL (_normalize_sex_minimal sex_raw)
  let mstat := match _pick_after_label mstatAlts lines with
    | none => ""
    | some raw0 => ofL (_clean_tail raw0)
  { data_nascita := dob, luogo_nascita := pob, nazionalita := nat,
    sesso := sex, stato_civile := mstat }

/-! ## Languages (parsers.py:521-561) -/

/-- A CEFR code `(A1|A2|B1|B2|C1|C2)` head, case-insensitive. -/
def isCefrPair (a b : Char) : Bool :=
  (toLowerC a = 'a' || toLowerC a = 'b' || toLowerC a = 'c') && (b = '1' || b = '2')

/-- `re.search(r"(.+?)\b(A1|A2|B1|B2|C1|C2)\b", line, re.I).group(1)`: the
prefix before the earliest boundary-delimited CEFR code at position ≥ 1. -/
def leftOfLevelGo (acc : List Char) (prev : Option Char) :
    List Char → Option (List Char)
  | [] => none
  | c :: t =>
    if !acc.isEmpty && wordB prev &&
       (match c :: t with
        | a :: b :: r => isCefrPair a b && wordBAfter r
        | _ => false)
    then some acc.reverse
    else leftOfLevelGo (c :: acc) (some c) t

/-- First CEFR code occurrence without boundaries
(`re.search(r"(A1|...|C2)", ln, re.I).group(1).upper()`). -/
def cefrPlain : List Char → Option (List Char)
  | a :: b :: r => if isCefrPair a b then some [toUpperC a, b] else cefrPlain (b :: r)
  | _ => none

/-- The continuation class `[\wÀ-ÿ' -]` of the bare-language fallback. -/
def langContC (c : Char) : Bool :=
  isWordC c || isLatin1RangeC c || c = '\'' || c = ' ' || c = '-'

/-- `re.fullmatch(r"[^\d\W][\wÀ-ÿ' -]{1,23}", ln)`: first char a word
character that is not a digit (letter or underscore), then 1-23 class
characters. -/
def langFullmatch (ln : List Char) : Bool :=
  match ln with
  | c :: rest =>
    (isAlphaC c || c = '_') && !rest.isEmpty && rest.length ≤ 23 &&
    rest.all langContC
  | [] => false

/-- Language dedup by lowercased stripped name, keeping first occurrences. -/
def dedupLingua (seen : List String) : List Lingua → List Lingua
  | [] => []
  | it :: rest =>
    let key := pyLowerStr (ofL (pyStrip it.lingua.data))
    if seen.contains key then dedupLingua seen rest
    else it :: dedupLingua (key :: seen) rest

/-- parsers.extract_languages (parsers.py:531-561). -/
def extract_languages (section_text all_text : String) : List Lingua :=
  let txt := if section_text != "" then section_text else all_text
  let lines := (pySplitlines (normL txt.data)).filter (fun l => !is_noiseL l)
  let out1 := lines.filterMap (fun ln =>
    match leftOfLevelGo [] none ln with
    | none => none
    | some g1 =>
      let left := pyStrip (pyStripSet " :–—-|•".data g1)
      if left.isEmpty then none
      else
        let lvl := ofL ((cefrPlain ln).getD [])
        some { lingua := ofL left, livello_scritto := lvl,
               livello_parlato := lvl, certificazioni := ([] : List String) })
  let out := if !out1.isEmpty then out1 else
    lines.filterMap (fun ln =>
      if ln.length ≤ 24 && langFullmatch ln then
        let words := pySplitWs ln
        let capc := (words.filter (fun w =>
          match w.head? with | some c => isUpperC c | none => false)).length
        if 2 * capc ≥ max 1 words.length then
          some { lingua := ofL (pyStrip ln), livello_scritto := "",
                 livello_parlato := "", certificazioni := ([] : List String) }
        else none
      else none)
  let res := (dedupLingua [] out).take 5
  if res.isEmpty then
    [{ lingua := "", livello_scritto := "", livello_parlato := "",
       certificazioni := [] }]
  else res

/-! ## Skills (parsers.py:563-582) -/

/-- Worker for the bullet splitter (fuel structural, never exhausted since
every step consumes at least one character). -/
def bulletSplitFuel : Nat → List Char → List (List Char)
  | 0, _ => [[]]
  | _ + 1, [] => [[]]
  | fuel + 1, c :: t =>
    if c = '•' || c = '-' || c = '●' || c = ',' || c = '\n' || c = ';' then
      [] :: bulletSplitFuel fuel t
    else if c = ' ' && t.head? = some ' ' then
      [] :: bulletSplitFuel fuel (t.dropWhile (fun x => x == ' '))
    else
      match bulletSplitFuel fuel t with
      | [] => [[c]]
      | l :: ls => (c :: l) :: ls

/-- `re.split(r"[••\-●,\n;]|  +", txt)`: split on the bullet
characters or on runs of two or more spaces. -/
def bulletSplitGo (cs : List Char) : List (List Char) :=
  bulletSplitFuel cs.length cs

/-- parsers._tokenize_bullets (parsers.py:567-570). -/
def _tokenize_bullets (section_text all_text : String) : List (List Char) :=
  let txt := if section_text != "" then section_text else all_text
  (bulletSplitGo txt.data).filterMap (fun t =>
    let n := normL t
    if n.isEmpty then none else some n)

/-- parsers.extract_skills (parsers.py:572-582). -/
def extract_skills (section_text all_text : String) : CompetenzeTecniche :=
  let tokens := _tokenize_bullets section_text all_text
  let altre := tokens.filter (fun t => !is_noiseL t && t.length ≤ 160)
  { linguaggi_programmazione := [], framework := [], database := [],
    strumenti := [], metodologie := [],
    altre_competenze := (dedupe_keep_order (altre.map ofL)).take 150 }

/-! ## Experience and education (parsers.py:584-699) -/

/-- Worker for the paragraph splitter (fuel structural, never exhausted). -/
def paraSplitFuel : Nat → List Char → List (List Char)
  | 0, _ => [[]]
  | _ + 1, [] => [[]]
  | fuel + 1, c :: t =>
    if c = '\n' && (t.takeWhile isSpaceC).contains '\n' then
      let ws := t.takeWhile isSpaceC
      let k := ws.length - 1 - ((ws.reverse.findIdx? (fun x => x == '\n')).getD 0)
      [] :: paraSplitFuel fuel (t.drop (k + 1))
    else
      match paraSplitFuel fuel t with
      | [] => [[c]]
      | l :: ls => (c :: l) :: ls

/-- `re.split(r"\n\s*\n", s)`: at a newline whose following whitespace run
contains another newline, the match extends (greedily) through the last
newline of that run. -/
def paraSplitGo (cs : List Char) : List (List Char) :=
  paraSplitFuel cs.length cs

/-- parsers._paragraphs (parsers.py:588-589). -/
def _paragraphs (section_text : List Char) : List (List Char) :=
  ((paraSplitGo section_text).filterMap (fun p =>
    let q := pyStrip p
    if q.isEmpty then none else some q)).take 60

/-- parsers._first_city (parsers.py:591-596). -/
def _first_city (lines : List (List Char)) : List Char :=
  match (lines.take 3).findSome? _looks_like_city with
  | some c => c
  | none => []

/-- `\d{1,2}` alternatives at the head (greedy, longest first), without
boundaries. -/
def d12Alts : List Char → List (List Char × List Char)
  | a :: b :: r =>
    (if isDigitC a && isDigitC b then [([a, b], r)] else []) ++
    (if isDigitC a then [([a], b :: r)] else [])
  | [a] => if isDigitC a then [([a], [])] else []
  | [] => []

/-- `\d{2,4}` greedy alternatives at the head (longest first). -/
def d24Alts (s : List Char) : List (List Char × List Char) :=
  let ds := s.takeWhile isDigitC
  let n := min ds.length 4
  ((List.range (n - 1)).reverse.map (· + 2)).map (fun k => (s.take k, s.drop k))

/-- `\d{1,2}[/\-.]\d{1,2}[/\-.]\d{2,4}` (no boundaries): match and rest. -/
def dAlt1At (s : List Char) : Option (List Char × List Char) :=
  (d12Alts s).findSome? (fun p =>
    match p.2 with
    | c1 :: t1 =>
      if !isSepDMY c1 then none else
      (d12Alts t1).findSome? (fun q =>
        match q.2 with
        | c2 :: t2 =>
          if !isSepDMY c2 then none else
          match d24Alts t2 with
          | [] => none
          | (r, rest) :: _ => some (p.1 ++ c1 :: q.1 ++ c2 :: r, rest)
        | [] => none)
    | [] => none)

/-- `\d{1,2}[/\-.]\d{4}` (no boundaries): match and rest. -/
def dAlt2At (s : List Char) : Option (List Char × List Char) :=
  (d12Alts s).findSome? (fun p =>
    match p.2 with
    | c1 :: t1 =>
      if !isSepDMY c1 then none else
      let ds := t1.takeWhile isDigitC
      if 4 ≤ ds.length then some (p.1 ++ c1 :: t1.take 4, t1.drop 4) else none
    | [] => none)

/-- `\b(?:19|20)\d{2}\b`: match and rest. -/
def dAlt4At (prev : Option Char) (s : List Char) : Option (List Char × List Char) :=
  if !wordB prev then none else
  match yearAt s with
  | none => none
  | some (y, r1) => if wordBAfter r1 then some (s.take 4, r1) else none

/-- The date alternation of the experience range pattern, in pattern order. -/
def dateAltsAt (prev : Option Char) (s : List Char) : Option (List Char × List Char) :=
  match dAlt1At s with
  | some r => some r
  | none =>
    match dAlt2At s with
    | some r => some r
    | none =>
      match monthYearAt 3 9 prev s with
      | some r => some r
      | none => dAlt4At prev s

/-- The end alternation `(\bpresente|current|oggi|now|attuale\b|dates...)`,
with the source's lopsided boundaries kept as written. -/
def endAltAt (prev : Option Char) (s : List Char) : Option (List Char × List Char) :=
  if wordB prev && (stripPrefixCI "presente".data s).isSome then
    some (s.take 8, s.drop 8)
  else if (stripPrefixCI "current".data s).isSome then some (s.take 7, s.drop 7)
  else if (stripPrefixCI "oggi".data s).isSome then some (s.take 4, s.drop 4)
  else if (stripPrefixCI "now".data s).isSome then some (s.take 3, s.drop 3)
  else if (match stripPrefixCI "attuale".data s with
           | some r => wordBAfter r
           | none => false) then some (s.take 7, s.drop 7)
  else dateAltsAt prev s

/-- The range connectors `(?:-|–|—|to|a|al|fino a|hasta|bis|à)` in order. -/
def connAts : List (List Char) :=
  ["-".data, "–".data, "—".data, "to".data, "a".data, "al".data,
   "fino a".data, "hasta".data, "bis".data, "à".data]

/-- No newline (the `.` class of the gaps). -/
def noNl (cs : List Char) : Bool := !cs.contains '\n'

/-- The experience range pattern (parsers.py:600-605) at one position:
`(.{0,30})(date).{0,15}(?:connector).{0,15}(end)`, returning group 0.
Quantifiers backtrack greedily, later choices varying first. -/
def firstRangeAt (prev0 : Option Char) (s : List Char) : Option (List Char) :=
  ((List.range (min 30 s.length + 1)).reverse).findSome? (fun prefLen =>
    let pre := s.take prefLen
    if !noNl pre then none else
    let prevD := if prefLen = 0 then prev0 else pre.getLast?
    let s1 := s.drop prefLen
    match dateAltsAt prevD s1 with
    | none => none
    | some (m2, r2) =>
      ((List.range (min 15 r2.length + 1)).reverse).findSome? (fun k1 =>
        let g1 := r2.take k1
        if !noNl g1 then none else
        let r2b := r2.drop k1
        connAts.findSome? (fun conn =>
          match stripPrefixCI (toLowerL conn) r2b with
          | none => none
          | some r3 =>
            let connM := r2b.take conn.length
            ((List.range (min 15 r3.length + 1)).reverse).findSome? (fun k2 =>
              let g2 := r3.take k2
              if !noNl g2 then none else
              let prevE := if k2 = 0 then connM.getLast? else g2.getLast?
              match endAltAt prevE (r3.drop k2) with
              | none => none
              | some (m4, _) => some (pre ++ m2 ++ g1 ++ connM ++ g2 ++ m4)))))

/-- `re.match(r"^\d{4}-\d{2}-\d{2}$", d)`. -/
def isIsoDate (cs : List Char) : Bool :=
  match cs with
  | [a, b, c, d, '-', e, f, '-', g, h] =>
    [a, b, c, d].all isDigitC && [e, f].all isDigitC && [g, h].all isDigitC
  | _ => false

/-- parsers._first_range (parsers.py:598-612). -/
def _first_range (L : Libs) (lines : List (List Char)) : String × String :=
  match (lines.take 3).findSome? (fun l => scanBAux firstRangeAt none l) with
  | some g0 => parse_range L (ofL g0)
  | none =>
    match (lines.take 3).findSome? (fun l =>
      let d := parse_date_any L (ofL l)
      if isIsoDate d.data then some d else none) with
    | some d => (d, "")
    | none => ("", "")

/-- `re.split(r"\s[–—-]\s", header, maxsplit=1)` as an optional pair. -/
def dashSplitGo (acc : List Char) : List Char → Option (List Char × List Char)
  | a :: b :: c :: t =>
    if isSpaceC a && (b = '–' || b = '—' || b = '-') && isSpaceC c then
      some (acc.reverse, t)
    else dashSplitGo (a :: acc) (b :: c :: t)
  | _ => none

/-- The header split shared by experience and education (parsers.py:631-643
and 677-685): `Title @ Company`, `Title - Company`, else title only. -/
def splitHeader (header : List Char) : String × String :=
  if header.contains '@' then
    let left := header.takeWhile (fun c => c != '@')
    let right := (header.dropWhile (fun c => c != '@')).drop 1
    (ofL (pyStripSet " -:|".data left), ofL (pyStripSet " -:|".data right))
  else if isSubL " - ".data header || isSubL " – ".data header ||
          isSubL " — ".data header then
    match dashSplitGo [] header with
    | some (l, r) => (ofL (pyStripSet " -:|".data l), ofL (pyStripSet " -:|".data r))
    | none => (ofL (pyStripSet " -:|".data header), "")
  else (ofL (pyStripSet " -:|".data header), "")

/-- The all-empty experience placeholder. -/
def emptyEsperienza : Esperienza :=
  { posizione := "", azienda := "", citta := "", paese := "",
    data_inizio := "", data_fine := "", descrizione := "",
    responsabilita := [], risultati_ottenuti := [] }

/-- parsers.extract_experience (parsers.py:614-659). -/
def extract_experience (L : Libs) (section_text : String) : List Esperienza :=
  if section_text = "" then [emptyEsperienza]
  else
    let out := (_paragraphs section_text.data).filterMap (fun para =>
      let lines := (pySplitlines para).filter (fun l => !is_noiseL l)
      match lines with
      | [] => none
      | header :: restLines =>
        let pa := splitHeader header
        let dd := _first_range L lines
        let citta := _first_city lines
        let descr := if restLines.isEmpty then "" else ofL (joinN restLines)
        some { posizione := pa.1, azienda := pa.2, citta := ofL citta, paese := "",
               data_inizio := dd.1, data_fine := dd.2, descrizione := descr,
               responsabilita := [], risultati_ottenuti := [] })
    if out.isEmpty then [emptyEsperienza] else out

/-- The all-empty education placeholder. -/
def emptyIstruzione : Istruzione :=
  { titolo_studio := "", istituto := "", citta := "", paese := "",
    data_inizio := "", data_fine := "", voto := "", descrizione := "", tesi := "" }

/-- parsers.extract_education (parsers.py:661-699). -/
def extract_education (L : Libs) (section_text : String) : List Istruzione :=
  if section_text = "" then [emptyIstruzione]
  else
    let out := (_paragraphs section_text.data).filterMap (fun para =>
      let lines := (pySplitlines para).filter (fun l => !is_noiseL l)
      match lines with
      | [] => none
      | header :: restLines =>
        let pa := splitHeader header
        let dd := _first_range L lines
        let citta := _first_city lines
        let descr := if restLines.isEmpty then "" else ofL (joinN restLines)
        some { titolo_studio := pa.1, istituto := pa.2, citta := ofL citta, paese := "",
               data_inizio := dd.1, data_fine := dd.2, voto := "",
               descrizione := descr, tesi := "" })
    if out.isEmpty then [emptyIstruzione] else out

/-! ## parsers.extract_privacy -/

/-- parsers.extract_privacy (parsers.py:705-709): first non-noise line of the
normalized text matching the GDPR-consent pattern, stripped and
right-stripped of `.,;: `; otherwise `""`. -/
def extract_privacy (text : String) : String :=
  match ((pySplitlines (normL text.data)).filter (fun l => !is_noiseL l)).find?
      privacyMatch with
  | some ln => ofL (pyRstripSet ".,;: ".data (pyStrip ln))
  | none => ""

/-! ## Orchestrator (parsers.py:715-800) -/

/-- Boolean scan driver with previous-character context. -/
def scanBoolAux (f : Option Char → List Char → Bool) :
    Option Char → List Char → Bool
  | _, [] => false
  | prev, c :: t => f prev (c :: t) || scanBoolAux f (some c) t

/-- `\blang(uage|uaggi|ues|...)?\b` at one position (the repeated `ues`
alternatives collapse to one; the empty alternative needs a boundary right
after `lang`). -/
def langSectAt (prev : Option Char) (s : List Char) : Bool :=
  wordB prev &&
  (match stripPrefixCI "lang".data s with
   | none => false
   | some r =>
     (match stripPrefixCI "uage".data r with
      | some r2 => wordBAfter r2
      | none => false) ||
     (match stripPrefixCI "uaggi".data r with
      | some r2 => wordBAfter r2
      | none => false) ||
     (match stripPrefixCI "ues".data r with
      | some r2 => wordBAfter r2
      | none => false) ||
     wordBAfter r)

/-- The skills heading roots
`\b(skill|competenze|habilidades|comp[ée]tences|f[äa]higkeiten)\b`. -/
def skillsKws : List (List Char) :=
  ["skill".data, "competenze".data, "habilidades".data,
   "compétences".data, "competences".data,
   "fähigkeiten".data, "fahigkeiten".data]

/-- The experience heading roots (parsers.py:758). -/
def expKws : List (List Char) :=
  ["experien".data, "employment".data, "impiego".data, "beruf".data,
   "lavor".data, "career".data, "history".data, "work".data]

/-- The education heading roots (parsers.py:762). -/
def eduKws : List (List Char) :=
  ["educat".data, "formaz".data, "ausbild".data, "stud".data,
   "school".data, "univers".data, "degree".data, "training".data]

/-- First section whose lowercased title matches the keyword roots. -/
def findSection (kws : List (List Char)) (sections : List (String × String)) : String :=
  match sections.find? (fun p => kwSearch kws (toLowerL p.1.data)) with
  | some p => p.2
  | none => ""

/-- First section whose lowercased title matches the language root pattern. -/
def findLangSection (sections : List (String × String)) : String :=
  match sections.find? (fun p => scanBoolAux langSectAt none (toLowerL p.1.data)) with
  | some p => p.2
  | none => ""

/-- parsers.parse_text_to_internal (parsers.py:715-800). -/
def parse_text_to_internal (L : Libs) (text : String)
    (blocks : Option (List LayoutBlock)) (filename : String) : InternalRecord :=
  let sections := detect_sections text
  let contacts := extract_contacts L text
  let nc := infer_name blocks contacts.email contacts.linkedin filename
    (some (sections.map Prod.fst))
  let personal := extract_personal_block L text
  let lang_section := findLangSection sections
  let languages := if lang_section != "" then
      extract_languages lang_section lang_section
    else []
  let skills_section := findSection skillsKws sections
  let skills := if skills_section != "" then
      extract_skills skills_section skills_section
    else
      { linguaggi_programmazione := [], framework := [], database := [],
        strumenti := [], metodologie := [], altre_competenze := [] }
  let exp_section := findSection expKws sections
  let edu_section := findSection eduKws sections
  let experiences := extract_experience L exp_section
  let education := extract_education L edu_section
  let privacy := extract_privacy text
  { anagrafica :=
      { nome := nc.1, cognome := nc.2,
        data_nascita := personal.data_nascita,
        luogo_nascita := personal.luogo_nascita,
        nazionalita := personal.nazionalita,
        sesso := personal.sesso,
        stato_civile := personal.stato_civile },
    contatti := contacts,
    istruzione := education,
    esperienze_lavorative := experiences,
    competenze_tecniche := skills,
    competenze_linguistiche := languages,
    competenze_trasversali := [], certificazioni := [], progetti := [],
    pubblicazioni := [], interessi := [], patente := [],
    autorizzazione_trattamento_dati := privacy,
    disponibilita := { trasferte := "", trasferimento := "",
                       tipo_contratto_preferito := [] },
    meta_section_titles := (sections.map Prod.fst).take 15 }

/-! ## Concrete library oracles for the concrete-input theorems -/

/-- The all-failing oracle: every library call fails (dateparser absent —
an explicit source configuration, utils.py:27-32 — and no phone numbers,
countries or TLDs recognised). -/
def noLibs : Libs where
  dateParse := fun _ => none
  phoneMatches := fun _ => []
  phoneRegion := fun _ => none
  alpha2 := fun _ => none
  alpha3 := fun _ => none
  lookup := fun _ => none
  tldSuffix := fun _ => none

/-- Modelled from the spec: the library facts needed by the Italian test
texts — "+39 333 1234567" is a valid Italian mobile whose E.164 form is
"+393331234567" and whose region is IT (phonenumbers); pycountry maps
alpha-2 "IT" and the names "Italy"/"Italia" to the canonical name "Italy"
(spec §4.2 and §8 "Phone round-trip").  All other queries fail. -/
def itLibs : Libs where
  dateParse := fun _ => none
  phoneMatches := fun s =>
    if isSubL "+39 333 1234567".data s.data then ["+393331234567"] else []
  phoneRegion := fun e => if e = "+393331234567" then some "IT" else none
  alpha2 := fun c => if c = "IT" then some "Italy" else none
  alpha3 := fun _ => none
  lookup := fun c => if c = "Italy" || c = "Italia" then some "Italy" else none
  tldSuffix := fun _ => none

/-- The end-to-end input text of the spec's §8 scenario. -/
def c1text : String :=
  "Mario Bianchi\nmario.bianchi@gmail.com\n+39 333 1234567\nMilano\n20121\n\nESPERIENZA LAVORATIVA\nDeveloper @ Acme\nGennaio 2020 - presente\nMilano\nSviluppo software."

/-! ## Claim-level predicates -/

/-- All lines of all section bodies, in document order. -/
def bodiesLines (text : String) : List (List Char) :=
  (detect_sections text).foldr (fun p acc => pySplitlines p.2.data ++ acc) []

/-- The lines accepted as headings by detect_sections. -/
def acceptedHeadingLines (text : String) : List (List Char) :=
  let lines := pySplitlines (normL text.data)
  (acceptedIdxs lines).map (fun i => lines.getD i [])

/-- The coverage property asserted by the spec for detect_sections
(generously reading "every line" as every non-blank line): the map is
non-empty and every non-heading, non-blank line of the normalized input
reappears among the section bodies' lines. -/
def c2Coverage (text : String) : Bool :=
  !(detect_sections text).isEmpty &&
  (pySplitlines (normL text.data)).all (fun l =>
    (acceptedHeadingLines text).contains l || (pyStrip l).isEmpty ||
    (bodiesLines text).contains l)

/-- Well-formedness of the pycountry oracles: a found country has a
nonempty name (true of the real library, whose country names are never
empty). -/
def LibsWF (L : Libs) : Prop :=
  (∀ s n, L.alpha2 s = some n → n ≠ "") ∧
  (∀ s n, L.alpha3 s = some n → n ≠ "") ∧
  (∀ s n, L.lookup s = some n → n ≠ "")

/-- No two adjacent spaces. -/
abbrev NoDS (l : List Char) : Prop :=
  l.Chain' (fun a b => ¬(a = ' ' ∧ b = ' '))

/-- Drop empty lines from both ends of a line list. -/
def trimEmp (ls : List (List Char)) : List (List Char) :=
  (((ls.dropWhile List.isEmpty).reverse).dropWhile List.isEmpty).reverse

/-- The invariant satisfied by `norm` outputs: no zero-width characters, no
carriage return or tab, no double spaces, only `\n` as a line separator,
every line strip-fixed, and the whole string strip-fixed. -/
def normedL (p : List Char) : Prop :=
  (∀ c ∈ p, isZwC c = false) ∧ '\r' ∉ p ∧ '\t' ∉ p ∧ NoDS p ∧
  (∀ c ∈ p, isLineSepC c = true → c = '\n') ∧
  (∀ l ∈ pySplitlines p, pyStrip l = l) ∧ pyStrip p = p

/-! # Theorems -/

/-! ## Generic helper lemmas -/

theorem findSome?_none {α β : Type} (l : List α) (f : α → Option β)
    (h : ∀ a, f a = none) : l.findSome? f = none := by
  induction l with
  | nil => rfl
  | cons x xs ih => simp [List.findSome?_cons, h x, ih]

theorem ofL_eq_empty_iff (l : List Char) : ofL l = "" ↔ l = [] := by
  constructor
  · intro h
    have h2 := congrArg String.data h
    simpa [ofL] using h2
  · intro h
    rw [h]
    rfl

theorem isoFmt_ne_nil (y m d : Nat) : isoFmt y m d ≠ [] := by
  simp [isoFmt]

/-! ## C5 — name consensus (spec §8 "Name consensus") -/

/-- C5: with email "anna.rossi@example.com", the LinkedIn URL whose `/in/`
slug is "anna-rossi-123", empty filename and no layout blocks, infer_name
returns ("Anna", "Rossi") via the 2-source consensus group. -/
theorem c5_infer_name_consensus :
    infer_name none "anna.rossi@example.com"
      "https://www.linkedin.com/in/anna-rossi-123" "" none = ("Anna", "Rossi") := by
  rfl

/-! ## C8 — filename fallback (spec §8 "Name fallback priority") -/

/-- C8: with only the filename "CV_Mario_Bianchi_2023.pdf" (no email, no
linkedin, no blocks), infer_name strips the extension, the filler "cv" and
the year and falls back to the filename tokens, returning
("Mario", "Bianchi"). -/
theorem c8_infer_name_filename_fallback :
    infer_name none "" "" "CV_Mario_Bianchi_2023.pdf" none = ("Mario", "Bianchi") := by
  rfl

/-! ## C6 — heading acceptance (code bug: length-1 lines accepted) -/

/-- C6 (divergence witness): the claim and the source's own comment
(parsers.py:61, "2..60 char") require headings of trimmed length at least 2,
but `_is_heading` only tests nonemptiness, so the single-character line "A"
is accepted as a heading and detect_sections splits on it. -/
theorem c6_length_one_heading_accepted :
    isHeading "A" = true ∧
    detect_sections "A\nsome body here" = [("A", "some body here")] :=
  ⟨by rfl, by rfl⟩

/-! ## C7 — postal-code year exclusion (spec §4.4 step 5, §8) -/

/-- C7: with the country unresolved (paese = "", not Italy), a top zone
containing only "2021" yields cap = "" (calendar year rejected) while
"41012" yields cap = "41012"; with the country resolved to Italy, the
postal code must be a standalone run of exactly 5 digits ("41012" accepted,
"1234" and "123456" rejected). -/
theorem c7_cap_year_exclusion :
    (extract_contacts noLibs "2021").indirizzo.paese = "" ∧
    (extract_contacts noLibs "2021").indirizzo.cap = "" ∧
    (extract_contacts noLibs "41012").indirizzo.paese = "" ∧
    (extract_contacts noLibs "41012").indirizzo.cap = "41012" ∧
    (extract_contacts itLibs "Italia\n41012").indirizzo.paese = "Italy" ∧
    (extract_contacts itLibs "Italia\n41012").indirizzo.cap = "41012" ∧
    (extract_contacts itLibs "Italia\n1234").indirizzo.paese = "Italy" ∧
    (extract_contacts itLibs "Italia\n1234").indirizzo.cap = "" ∧
    (extract_contacts itLibs "Italia\n123456").indirizzo.paese = "Italy" ∧
    (extract_contacts itLibs "Italia\n123456").indirizzo.cap = "" :=
  ⟨by rfl, by rfl, by rfl, by rfl, by rfl, by rfl, by rfl, by rfl, by rfl, by rfl⟩

/-! ## C1 — end-to-end scenario (spec §8 "End-to-end scenario") -/

/-- C1 (counterexample): on the spec's §8 input, the city field is not
"Milano" — the fallback city scan skips every candidate `c` for which
`normalize_country(c)` returns `c` unchanged, which is what normalize_country
does for any unrecognized string, so "Milano" is skipped and the field stays
empty. -/
theorem c1_scenario_citta_not_milano :
    ¬ ((parse_text_to_internal itLibs c1text none "").contatti.indirizzo.citta
       = "Milano") := by
  rw [show (parse_text_to_internal itLibs c1text none "").contatti.indirizzo.citta
      = "" from by rfl]
  decide

/-- C1 (amended): on the spec's §8 input, email, telefono (E.164), paese and
cap come out as claimed, but citta = "" (see the counterexample) and the
experience list is the single all-empty placeholder, because the section
matcher `\b(experien|...|lavor|...)\b` matches neither "esperienza" (the
pattern stem has an `x`) nor "lavorativa" (the trailing `\b` fails inside
the word), so no experience section is found. -/
theorem c1_scenario_amended :
    (parse_text_to_internal itLibs c1text none "").contatti.email
      = "mario.bianchi@gmail.com" ∧
    (parse_text_to_internal itLibs c1text none "").contatti.telefono
      = "+393331234567" ∧
    (parse_text_to_internal itLibs c1text none "").contatti.indirizzo.citta = "" ∧
    (parse_text_to_internal itLibs c1text none "").contatti.indirizzo.paese
      = "Italy" ∧
    (parse_text_to_internal itLibs c1text none "").contatti.indirizzo.cap
      = "20121" ∧
    (parse_text_to_internal itLibs c1text none "").esperienze_lavorative
      = [emptyEsperienza] :=
  ⟨by rfl, by rfl, by rfl, by rfl, by rfl, by rfl⟩

/-! ## C2 — section coverage (spec §8 "Total section coverage") -/

/-- C2 (counterexample): the line "under the spreading tree" precedes the
first accepted heading and is silently dropped from the section bodies, so
the claimed coverage property is false. -/
theorem c2_coverage_counterexample :
    c2Coverage "under the spreading tree\n\nESPERIENZA\nDeveloper" = false := by
  rfl

/-- C2 (amended): detect_sections always returns a non-empty map, and when
no heading is accepted the single section "body" holds the whole normalized
text; however lines before the first accepted heading (and earlier bodies of
duplicated titles) are dropped, so full reconstitution fails. -/
theorem c2_sections_nonempty_body_fallback (text : String) :
    detect_sections text ≠ [] ∧
    (acceptedIdxs (pySplitlines (normL text.data)) = [] →
      detect_sections text = [("body", norm text)]) := by
  constructor
  · simp only [detect_sections]
    split
    · simp
    · split
      · simp
      · next h2 => simpa [List.isEmpty_iff] using h2
  · intro h
    simp only [detect_sections, h, List.isEmpty_nil, if_true]
    rfl

/-- C2 (witness): the amended theorem applied at a concrete heading-free
text, with the hypothesis of the inner implication discharged by
computation. -/
theorem c2_sections_nonempty_body_fallback_witness :
    detect_sections "lorem ipsum dolor" ≠ [] ∧
    detect_sections "lorem ipsum dolor" = [("body", norm "lorem ipsum dolor")] :=
  ⟨(c2_sections_nonempty_body_fallback "lorem ipsum dolor").1,
   (c2_sections_nonempty_body_fallback "lorem ipsum dolor").2 (by rfl)⟩

/-! ## C4 — resolver totality and failure values (spec §4.2) -/

/-- C4 (counterexample): on unrecognizable input the date and country
resolvers do not return "" — they return the cleaned input text
(utils.py:180 and utils.py:325). -/
theorem c4_resolver_failure_counterexample :
    parse_date_any noLibs "hello" = "hello" ∧ "hello" ≠ "" ∧
    normalize_country noLibs "Xyzzyfoo" = "Xyzzyfoo" ∧ "Xyzzyfoo" ≠ "" :=
  ⟨by rfl, by decide, by rfl, by decide⟩

/-- C4 (amended): the resolvers are total Lean functions; country_from_phone,
country_from_tld, country_from_text and phone_candidates return ""/[] when
every library call fails, and parse_range on empty input returns a pair of
empty strings; but parse_date_any and normalize_country return the cleaned
input on failure, hence "" only when the cleaned input is empty. -/
theorem c4_resolvers_amended (L : Libs) (s : String) (hWF : LibsWF L) :
    (normL s.data ≠ [] →
      parse_date_any L s ≠ "" ∧ normalize_country L s ≠ "") ∧
    parse_date_any L "" = "" ∧
    normalize_country L "" = "" ∧
    country_from_phone noLibs s = "" ∧
    country_from_tld noLibs s = "" ∧
    country_from_text noLibs s = "" ∧
    phone_candidates noLibs s = [] ∧
    parse_range noLibs "" = ("", "") := by
  refine ⟨fun h => ⟨?_, ?_⟩, by rfl, by rfl, by rfl, by rfl, ?_, by rfl, by rfl⟩
  · simp only [parse_date_any, List.isEmpty_iff]
    rw [if_neg h]
    split
    · next y m d heq =>
      simp [ofL_eq_empty_iff, isoFmt_ne_nil]
    · split
      · next y mn d heq =>
        simp [ofL_eq_empty_iff, isoFmt_ne_nil]
      · split
        · next p heq =>
          simp [ofL_eq_empty_iff, isoFmt_ne_nil]
        · split
          · next y heq =>
            simp [ofL_eq_empty_iff, isoFmt_ne_nil]
          · simpa [ofL_eq_empty_iff] using h
  · simp only [normalize_country, List.isEmpty_iff]
    rw [if_neg h]
    split
    · next n heq => exact hWF.1 _ _ heq
    · split
      · next n heq => exact hWF.2.1 _ _ heq
      · split
        · next n heq => exact hWF.2.2 _ _ heq
        · simpa [ofL_eq_empty_iff] using h
  · simp only [country_from_text, List.isEmpty_iff]
    split
    · rfl
    · rw [findSome?_none _ _ (fun r => by
        simp only [noLibs]
        split
        · rfl
        · split
          · rfl
          · rfl)]
      rw [findSome?_none _ _ (fun p => by simp only [noLibs])]
      rw [findSome?_none _ _ (fun w => by simp only [noLibs])]

/-- C4 (witness): the amended theorem applied at the all-failing oracle and
the concrete input "Xyzzyfoo", its well-formedness and nonemptiness
hypotheses discharged by computation. -/
theorem c4_resolvers_amended_witness :
    parse_date_any noLibs "Xyzzyfoo" ≠ "" ∧
    normalize_country noLibs "Xyzzyfoo" ≠ "" ∧
    phone_candidates noLibs "Xyzzyfoo" = [] := by
  have hWF : LibsWF noLibs := by
    refine ⟨?_, ?_, ?_⟩ <;> intro s n h <;> simp [noLibs] at h
  have h := c4_resolvers_amended noLibs "Xyzzyfoo" hWF
  exact ⟨(h.1 (by decide)).1, (h.1 (by decide)).2, h.2.2.2.2.2.2.1⟩

/-! ## C10 — phone/mobile invariant (parsers.py:325-329, utils dedupe) -/

theorem dedupeGo_subset (seen : List String) (xs : List String) :
    ∀ x ∈ dedupeGo seen xs, x ∈ xs := by
  induction xs generalizing seen with
  | nil => intro x hx; exact absurd hx (by simp [dedupeGo])
  | cons y ys ih =>
    intro x hx
    simp only [dedupeGo] at hx
    split at hx
    · exact List.mem_cons_of_mem _ (ih seen x hx)
    · rcases List.mem_cons.mp hx with h | h
      · exact h ▸ List.mem_cons_self _ _
      · exact List.mem_cons_of_mem _ (ih _ x h)

theorem dedupeGo_not_seen (seen : List String) (xs : List String) :
    ∀ x ∈ dedupeGo seen xs, pyLowerStr x ∉ seen := by
  induction xs generalizing seen with
  | nil => intro x hx; exact absurd hx (by simp [dedupeGo])
  | cons y ys ih =>
    intro x hx
    simp only [dedupeGo] at hx
    split at hx
    · exact ih seen x hx
    · next hns =>
      rcases List.mem_cons.mp hx with h | h
      · subst h
        simpa using hns
      · intro hmem
        exact (ih _ x h) (List.mem_cons_of_mem _ hmem)

theorem dedupeGo_pairwise (seen : List String) (xs : List String) :
    (dedupeGo seen xs).Pairwise (fun a b => pyLowerStr a ≠ pyLowerStr b) := by
  induction xs generalizing seen with
  | nil => simp [dedupeGo]
  | cons y ys ih =>
    simp only [dedupeGo]
    split
    · exact ih seen
    · refine List.Pairwise.cons ?_ (ih _)
      intro b hb heq
      have := dedupeGo_not_seen _ _ b hb
      exact this (heq ▸ List.mem_cons_self _ _)

theorem dedupe_keep_order_pairwise (xs : List String) :
    (dedupe_keep_order xs).Pairwise (fun a b => pyLowerStr a ≠ pyLowerStr b) :=
  dedupeGo_pairwise [] xs

theorem dedupe_keep_order_subset (xs : List String) :
    ∀ x ∈ dedupe_keep_order xs, x ∈ xs :=
  dedupeGo_subset [] xs

/-- The head/second invariants of a deduplicated nonempty-element list. -/
theorem phones_headD_invariants (ps : List String)
    (hp : ps.Pairwise (fun a b => pyLowerStr a ≠ pyLowerStr b))
    (hne : ∀ p ∈ ps, p ≠ "") :
    ((ps.drop 1).headD "" ≠ "" → ps.headD "" ≠ "") ∧
    (ps.headD "" ≠ "" → (ps.drop 1).headD "" ≠ "" →
      ps.headD "" ≠ (ps.drop 1).headD "") := by
  match ps, hp with
  | [], _ => exact ⟨fun h => absurd rfl h, fun h => absurd rfl h⟩
  | [p], _ => exact ⟨fun h => absurd rfl h, fun _ h => absurd rfl h⟩
  | p :: q :: rest, hp =>
    refine ⟨fun _ => hne p (List.mem_cons_self _ _), fun _ _ hpq => ?_⟩
    have hrel := List.rel_of_pairwise_cons hp (List.mem_cons_self _ _)
    simp only [List.drop, List.headD] at hpq
    exact hrel (congrArg pyLowerStr hpq)

/-- C10: in extract_contacts output, cellulare is nonempty only when
telefono is, and when both are nonempty they are distinct strings, because
they are the first and second entries of the value-deduplicated
order-preserving phone-candidate list.  The hypothesis states the
phonenumbers guarantee that produced E.164 strings are nonempty. -/
theorem c10_phone_mobile_invariant (L : Libs) (text : String)
    (hne : ∀ s p, p ∈ L.phoneMatches s → p ≠ "") :
    ((extract_contacts L text).cellulare ≠ "" →
      (extract_contacts L text).telefono ≠ "") ∧
    ((extract_contacts L text).telefono ≠ "" →
      (extract_contacts L text).cellulare ≠ "" →
      (extract_contacts L text).telefono ≠ (extract_contacts L text).cellulare) := by
  have htel : (extract_contacts L text).telefono
      = (phone_candidates L (ofL (joinN (contactZone text)))).headD "" := rfl
  have hcel : (extract_contacts L text).cellulare
      = ((phone_candidates L (ofL (joinN (contactZone text)))).drop 1).headD "" := rfl
  rw [htel, hcel]
  refine phones_headD_invariants _ (dedupe_keep_order_pairwise _) ?_
  intro p hp
  exact hne _ p (dedupe_keep_order_subset _ p hp)

/-- C10 (witness): the theorem applied at the concrete Italian oracle and
the §8 scenario text, the nonemptiness hypothesis discharged explicitly. -/
theorem c10_phone_mobile_invariant_witness :
    ((extract_contacts itLibs c1text).cellulare ≠ "" →
      (extract_contacts itLibs c1text).telefono ≠ "") ∧
    ((extract_contacts itLibs c1text).telefono ≠ "" →
      (extract_contacts itLibs c1text).cellulare ≠ "" →
      (extract_contacts itLibs c1text).telefono
        ≠ (extract_contacts itLibs c1text).cellulare) := by
  refine c10_phone_mobile_invariant itLibs c1text ?_
  intro s p h
  simp only [itLibs] at h
  split at h
  · simp only [List.mem_singleton] at h
    subst h
    decide
  · simp at h

theorem twoStepInd {α : Type} {P : List α → Prop} (h0 : P []) (h1 : ∀ c, P [c])
    (h2 : ∀ c1 c2 t, P t → P (c2 :: t) → P (c1 :: c2 :: t)) : ∀ l, P l := by
  have key : ∀ l, P l ∧ ∀ c, P (c :: l) := by
    intro l
    induction l with
    | nil => exact ⟨h0, h1⟩
    | cons a t ih => exact ⟨ih.2 a, fun c => h2 c a t ih.1 (ih.2 a)⟩
  exact fun l => (key l).1

theorem dropWhile_head_not {α : Type} {p : α → Bool} {l : List α} {c : α}
    (h : (l.dropWhile p).head? = some c) : p c = false := by
  induction l with
  | nil => simp [List.dropWhile] at h
  | cons a t ih =>
    rw [List.dropWhile_cons] at h
    split at h
    · exact ih h
    · next hp =>
      simp only [List.head?_cons, Option.some.injEq] at h
      subst h
      simpa using hp

theorem dropWhile_eq_self_of_head {α : Type} {p : α → Bool} {l : List α}
    (h : ∀ c, l.head? = some c → p c = false) : l.dropWhile p = l := by
  cases l with
  | nil => rfl
  | cons a t =>
    rw [List.dropWhile_cons, if_neg]
    simp [h a rfl]

theorem dropTrailing_pre (p : Char → Bool) (l : List Char) :
    dropTrailing p l <+: l := by
  rw [dropTrailing, ← List.reverse_reverse l, List.reverse_prefix]
  simpa using List.dropWhile_suffix p

theorem dropTrailing_getLast_not {p : Char → Bool} {l : List Char} {c : Char}
    (h : (dropTrailing p l).getLast? = some c) : p c = false := by
  rw [dropTrailing, List.getLast?_reverse] at h
  exact dropWhile_head_not h

theorem dropTrailing_eq_self_of_last {p : Char → Bool} {l : List Char}
    (h : ∀ c, l.getLast? = some c → p c = false) : dropTrailing p l = l := by
  rw [dropTrailing, dropWhile_eq_self_of_head, List.reverse_reverse]
  intro c hc
  exact h c (by rwa [← List.getLast?_reverse, List.reverse_reverse] at hc)

theorem pyStrip_head_not {l : List Char} {c : Char}
    (h : (pyStrip l).head? = some c) : isSpaceC c = false := by
  rw [pyStrip] at h
  rcases dropTrailing_pre isSpaceC (l.dropWhile isSpaceC) with ⟨t, ht⟩
  have hne : dropTrailing isSpaceC (l.dropWhile isSpaceC) ≠ [] := by
    intro hnil
    rw [hnil] at h
    simp at h
  have : (l.dropWhile isSpaceC).head? = some c := by
    rw [← ht, List.head?_append]
    rw [Option.or_of_isSome]
    · exact h
    · rw [h]
      rfl
  exact dropWhile_head_not this

theorem pyStrip_getLast_not {l : List Char} {c : Char}
    (h : (pyStrip l).getLast? = some c) : isSpaceC c = false := by
  rw [pyStrip] at h
  exact dropTrailing_getLast_not h

theorem pyStrip_eq_self {l : List Char}
    (hh : ∀ c, l.head? = some c → isSpaceC c = false)
    (hl : ∀ c, l.getLast? = some c → isSpaceC c = false) : pyStrip l = l := by
  rw [pyStrip, dropWhile_eq_self_of_head hh, dropTrailing_eq_self_of_last hl]

theorem pyStrip_idem (l : List Char) : pyStrip (pyStrip l) = pyStrip l :=
  pyStrip_eq_self (fun _ h => pyStrip_head_not h) (fun _ h => pyStrip_getLast_not h)

theorem pyStrip_within (l : List Char) : pyStrip l <:+: l := by
  rw [pyStrip]
  exact ((dropTrailing_pre isSpaceC _).isInfix.trans
    (List.dropWhile_suffix isSpaceC).isInfix)

theorem mem_pyStrip {l : List Char} {c : Char} (h : c ∈ pyStrip l) : c ∈ l :=
  (pyStrip_within l).subset h

theorem chain'_of_within {α : Type} {R : α → α → Prop} {l' l : List α}
    (h : l' <:+: l) (hc : l.Chain' R) : l'.Chain' R := by
  rcases h with ⟨s, t, rfl⟩
  exact (List.chain'_append.mp (List.chain'_append.mp hc).1).2.1

theorem mem_subRunsGo {p : Char → Bool} {r : Char} {l : List Char} {b : Bool}
    {c : Char} (h : c ∈ subRunsGo p r b l) :
    (p c = false ∧ c ∈ l) ∨ c = r := by
  induction l generalizing b with
  | nil => simp [subRunsGo] at h
  | cons a t ih =>
    simp only [subRunsGo] at h
    split at h
    · split at h
      · rcases ih h with ⟨hf, hm⟩ | hr
        · exact Or.inl ⟨hf, List.mem_cons_of_mem _ hm⟩
        · exact Or.inr hr
      · rcases List.mem_cons.mp h with rfl | h2
        · exact Or.inr rfl
        · rcases ih h2 with ⟨hf, hm⟩ | hr
          · exact Or.inl ⟨hf, List.mem_cons_of_mem _ hm⟩
          · exact Or.inr hr
    · next hp =>
      rcases List.mem_cons.mp h with rfl | h2
      · exact Or.inl ⟨by simpa using hp, List.mem_cons_self _ _⟩
      · rcases ih h2 with ⟨hf, hm⟩ | hr
        · exact Or.inl ⟨hf, List.mem_cons_of_mem _ hm⟩
        · exact Or.inr hr

theorem subRunsGo_head_true {p : Char → Bool} {r : Char} {l : List Char}
    {c : Char} (h : (subRunsGo p r true l).head? = some c) : p c = false := by
  induction l with
  | nil => simp [subRunsGo] at h
  | cons a t ih =>
    simp only [subRunsGo] at h
    split at h
    · exact ih h
    · next hp =>
      simp only [List.head?_cons, Option.some.injEq] at h
      subst h
      simpa using hp

theorem subRunsGo_chain (l : List Char) :
    ∀ b, NoDS (subRunsGo isHTC ' ' b l) := by
  induction l with
  | nil => intro b; simp [subRunsGo, NoDS]
  | cons a t ih =>
    intro b
    simp only [subRunsGo]
    split
    · split
      · exact ih true
      · rw [NoDS, List.chain'_cons']
        refine ⟨?_, ih true⟩
        intro y hy h2
        have := subRunsGo_head_true hy
        rw [h2.2] at this
        simp [isHTC] at this
    · next hp =>
      rw [NoDS, List.chain'_cons']
      refine ⟨?_, ih false⟩
      intro y hy h2
      rw [h2.1] at hp
      simp [isHTC] at hp

theorem subRunsGo_true_eq_false {p : Char → Bool} {r : Char} {l : List Char}
    (h : ∀ c, l.head? = some c → p c = false) :
    subRunsGo p r true l = subRunsGo p r false l := by
  cases l with
  | nil => rfl
  | cons a t =>
    simp only [subRunsGo]
    rw [if_neg]
    · rw [if_neg]
      simp [h a rfl]
    · simp [h a rfl]

theorem subRuns_eq_self {l : List Char}
    (ht : '\t' ∉ l) (hds : NoDS l) : subRuns isHTC ' ' l = l := by
  rw [subRuns]
  induction l with
  | nil => rfl
  | cons a t ih =>
    by_cases hp : isHTC a = true
    · have ha : a = ' ' := by
        rcases (by simpa [isHTC] using hp : a = ' ' ∨ a = '\t') with h | h
        · exact h
        · exact absurd (h ▸ List.mem_cons_self a t) ht
      subst ha
      simp only [subRunsGo, hp, if_true, Bool.false_eq_true, if_false]
      congr 1
      rw [subRunsGo_true_eq_false]
      · exact ih (fun hm => ht (List.mem_cons_of_mem _ hm)) (List.Chain'.tail hds)
      · intro c hc
        have hrel := (List.chain'_cons'.mp hds).1 c hc
        have hct : c ≠ '\t' := fun hct =>
          ht (List.mem_cons_of_mem _ (hct ▸ List.mem_of_mem_head? hc))
        have hcs : c ≠ ' ' := fun hcs => hrel ⟨rfl, hcs⟩
        simp [isHTC, hcs, hct]
    · simp only [subRunsGo]
      rw [if_neg hp]
      congr 1
      exact ih (fun hm => ht (List.mem_cons_of_mem _ hm)) (List.Chain'.tail hds)

theorem mem_crlf {l : List Char} {c : Char} (h : c ∈ crlf l) :
    c ∈ l ∨ c = '\n' := by
  induction l using twoStepInd with
  | h0 => simp [crlf] at h
  | h1 d =>
    simp only [crlf] at h
    exact Or.inl h
  | h2 c1 c2 t iht ihct =>
    simp only [crlf] at h
    split at h
    · rcases List.mem_cons.mp h with rfl | h2
      · exact Or.inr rfl
      · rcases iht h2 with hm | hn
        · exact Or.inl (List.mem_cons_of_mem _ (List.mem_cons_of_mem _ hm))
        · exact Or.inr hn
    · rcases List.mem_cons.mp h with rfl | h2
      · exact Or.inl (List.mem_cons_self _ _)
      · rcases ihct h2 with hm | hn
        · exact Or.inl (List.mem_cons_of_mem _ hm)
        · exact Or.inr hn

theorem crlf_eq_self {l : List Char} (h : '\r' ∉ l) : crlf l = l := by
  induction l using twoStepInd with
  | h0 => rfl
  | h1 d => rfl
  | h2 c1 c2 t iht ihct =>
    simp only [crlf]
    rw [if_neg]
    · rw [ihct (fun hm => h (List.mem_cons_of_mem _ hm))]
    · intro hc
      simp only [Bool.and_eq_true, decide_eq_true_eq] at hc
      exact h (by simp [hc.1])

theorem mem_removeZw {l : List Char} {c : Char} (h : c ∈ removeZw l) :
    c ∈ l ∧ isZwC c = false := by
  rw [removeZw] at h
  have := List.mem_filter.mp h
  exact ⟨this.1, by simpa using this.2⟩

theorem removeZw_eq_self {l : List Char} (h : ∀ c ∈ l, isZwC c = false) :
    removeZw l = l := by
  rw [removeZw, List.filter_eq_self]
  intro a ha
  simp [h a ha]

theorem lines_mem_noSep {cs : List Char} :
    ∀ l ∈ pySplitlines cs, ∀ c ∈ l, c ∈ cs ∧ isLineSepC c = false := by
  induction cs using twoStepInd with
  | h0 => simp [pySplitlines]
  | h1 d =>
    intro l hl c hc
    simp only [pySplitlines] at hl
    split at hl
    · simp only [List.mem_singleton] at hl
      subst hl
      simp at hc
    · next hd =>
      simp only [List.mem_singleton] at hl
      subst hl
      simp only [List.mem_singleton] at hc
      subst hc
      exact ⟨List.mem_singleton_self _, by simpa using hd⟩
  | h2 c1 c2 t iht ihct =>
    intro l hl c hc
    simp only [pySplitlines] at hl
    split at hl
    · rcases List.mem_cons.mp hl with rfl | h2
      · simp at hc
      · have := iht l h2 c hc
        exact ⟨List.mem_cons_of_mem _ (List.mem_cons_of_mem _ this.1), this.2⟩
    · split at hl
      · rcases List.mem_cons.mp hl with rfl | h2
        · simp at hc
        · have := ihct l h2 c hc
          exact ⟨List.mem_cons_of_mem _ this.1, this.2⟩
      · next hsep =>
        cases hS : pySplitlines (c2 :: t) with
        | nil =>
          rw [hS] at hl
          simp only [List.mem_singleton] at hl
          subst hl
          simp only [List.mem_singleton] at hc
          subst hc
          exact ⟨List.mem_cons_self _ _, by simpa using hsep⟩
        | cons l0 ls =>
          rw [hS] at hl
          rcases List.mem_cons.mp hl with rfl | h2
          · rcases List.mem_cons.mp hc with rfl | h3
            · exact ⟨List.mem_cons_self _ _, by simpa using hsep⟩
            · have := ihct l0 (hS ▸ List.mem_cons_self _ _) c h3
              exact ⟨List.mem_cons_of_mem _ this.1, this.2⟩
          · have := ihct l (hS ▸ List.mem_cons_of_mem _ h2) c hc
            exact ⟨List.mem_cons_of_mem _ this.1, this.2⟩

theorem splitlines_ne_nil {cs : List Char} (h : cs ≠ []) :
    pySplitlines cs ≠ [] := by
  cases cs with
  | nil => exact absurd rfl h
  | cons a t =>
    cases t with
    | nil =>
      simp only [pySplitlines]
      split <;> simp
    | cons b t2 =>
      simp only [pySplitlines]
      split
      · simp
      · split
        · simp
        · cases hS : pySplitlines (b :: t2) <;> simp

/-- Lines of a split: the first is a prefix, the rest are infixes. -/
theorem lines_structure (cs : List Char) :
    pySplitlines cs = [] ∨
    ∃ l ls, pySplitlines cs = l :: ls ∧ l <+: cs ∧ ∀ x ∈ ls, x <:+: cs := by
  induction cs using twoStepInd with
  | h0 => exact Or.inl rfl
  | h1 d =>
    refine Or.inr ?_
    simp only [pySplitlines]
    split
    · exact ⟨[], [], rfl, List.nil_prefix, by simp⟩
    · exact ⟨[d], [], rfl, List.prefix_refl _, by simp⟩
  | h2 c1 c2 t iht ihct =>
    refine Or.inr ?_
    simp only [pySplitlines]
    split
    · refine ⟨[], pySplitlines t, rfl, List.nil_prefix, ?_⟩
      intro x hx
      have hinf : x <:+: t := by
        rcases iht with h | ⟨l0, ls0, heq, hpre, hrest⟩
        · rw [h] at hx; simp at hx
        · rw [heq] at hx
          rcases List.mem_cons.mp hx with rfl | h2
          · exact hpre.isInfix
          · exact hrest x h2
      exact List.infix_cons (List.infix_cons hinf)
    · split
      · refine ⟨[], pySplitlines (c2 :: t), rfl, List.nil_prefix, ?_⟩
        intro x hx
        have hinf : x <:+: c2 :: t := by
          rcases ihct with h | ⟨l0, ls0, heq, hpre, hrest⟩
          · rw [h] at hx; simp at hx
          · rw [heq] at hx
            rcases List.mem_cons.mp hx with rfl | h2
            · exact hpre.isInfix
            · exact hrest x h2
        exact List.infix_cons hinf
      · rcases ihct with h | ⟨l1, ls1, heq, hpre, hrest⟩
        · exact absurd h (splitlines_ne_nil (by simp))
        · rw [heq]
          refine ⟨c1 :: l1, ls1, rfl, ?_, ?_⟩
          · rcases hpre with ⟨r, hr⟩
            exact ⟨r, by simp [hr]⟩
          · intro x hx
            exact List.infix_cons (hrest x hx)

theorem joinN_cons_first (c : Char) (l : List Char) (ls : List (List Char)) :
    joinN ((c :: l) :: ls) = c :: joinN (l :: ls) := by
  cases ls with
  | nil => rfl
  | cons x xs => rfl

theorem joinN_cons_of_ne_nil {ls : List (List Char)} (h : ls ≠ []) (l : List Char) :
    joinN (l :: ls) = l ++ '\n' :: joinN ls := by
  cases ls with
  | nil => exact absurd rfl h
  | cons x xs => rfl

/-- Joining the split restores texts whose only separators are `\n` and
which do not end in `\n`. -/
theorem joinN_pySplitlines {cs : List Char}
    (hsep : ∀ c ∈ cs, isLineSepC c = true → c = '\n')
    (hlast : cs.getLast? ≠ some '\n') :
    joinN (pySplitlines cs) = cs := by
  induction cs using twoStepInd with
  | h0 => rfl
  | h1 d =>
    simp only [pySplitlines]
    split
    · next hd =>
      have : d = '\n' := hsep d (List.mem_singleton_self _) hd
      subst this
      exact absurd rfl hlast
    · rfl
  | h2 c1 c2 t iht ihct =>
    simp only [pySplitlines]
    split
    · next hc =>
      simp only [Bool.and_eq_true, decide_eq_true_eq] at hc
      have : c1 = '\n' := hsep c1 (List.mem_cons_self _ _) (by simp [hc.1, isLineSepC])
      rw [hc.1] at this
      exact absurd this (by decide)
    · split
      · next hc1 =>
        have hc1n : c1 = '\n' := hsep c1 (List.mem_cons_self _ _) hc1
        subst hc1n
        rw [joinN_cons_of_ne_nil (splitlines_ne_nil (by simp))]
        rw [ihct (fun c hc hs => hsep c (List.mem_cons_of_mem _ hc) hs)
          (by rwa [List.getLast?_cons_cons] at hlast)]
        rfl
      · rcases lines_structure (c2 :: t) with h | ⟨l1, ls1, heq, hpre, hrest⟩
        · exact absurd h (splitlines_ne_nil (by simp))
        · rw [heq, joinN_cons_first, ← heq]
          rw [ihct (fun c hc hs => hsep c (List.mem_cons_of_mem _ hc) hs)
            (by rwa [List.getLast?_cons_cons] at hlast)]

/-- A nonempty separator-free text splits into itself. -/
theorem pySplitlines_noSep {l : List Char}
    (hsep : ∀ c ∈ l, isLineSepC c = false) (hne : l ≠ []) :
    pySplitlines l = [l] := by
  induction l with
  | nil => exact absurd rfl hne
  | cons a t ih =>
    cases t with
    | nil =>
      simp only [pySplitlines]
      rw [if_neg]
      simp [hsep a (List.mem_singleton_self _)]
    | cons b t2 =>
      simp only [pySplitlines]
      rw [if_neg, if_neg]
      · rw [ih (fun c hc => hsep c (List.mem_cons_of_mem _ hc)) (by simp)]
      · simp [hsep a (List.mem_cons_self _ _)]
      · have := hsep a (List.mem_cons_self _ _)
        intro hc
        simp only [Bool.and_eq_true, decide_eq_true_eq] at hc
        rw [hc.1] at this
        simp [isLineSepC] at this

/-- Splitting after a leading newline. -/
theorem pySplitlines_newline_cons (x : List Char) :
    pySplitlines ('\n' :: x) = [] :: pySplitlines x := by
  cases x with
  | nil => rfl
  | cons y ys =>
    simp only [pySplitlines]
    rw [if_neg (by simp), if_pos (by decide)]

/-- Prepending a separator-free line and a newline adds one line to the
split. -/
theorem pySplitlines_append {l x : List Char}
    (hsep : ∀ c ∈ l, isLineSepC c = false) :
    pySplitlines (l ++ '\n' :: x) = l :: pySplitlines x := by
  induction l with
  | nil => exact pySplitlines_newline_cons x
  | cons a t ih =>
    have hna : isLineSepC a = false := hsep a (List.mem_cons_self _ _)
    have hnr : a ≠ '\r' := by
      intro h
      rw [h] at hna
      simp [isLineSepC] at hna
    cases t with
    | nil =>
      simp only [List.cons_append, List.nil_append, pySplitlines]
      rw [if_neg (by simp [hnr]), if_neg (by simpa using hna)]
      rw [pySplitlines_newline_cons x]
    | cons b t2 =>
      have ih2 := ih (fun c hc => hsep c (List.mem_cons_of_mem _ hc))
      simp only [List.cons_append] at ih2 ⊢
      simp only [pySplitlines]
      rw [if_neg (by simp [hnr]), if_neg (by simpa using hna)]
      rw [ih2]

/-- Splitting the join recovers the lines, provided they are separator-free
and the last one is nonempty. -/
theorem pySplitlines_joinN {ls : List (List Char)}
    (hsep : ∀ l ∈ ls, ∀ c ∈ l, isLineSepC c = false)
    (hne : ls ≠ []) (hlast : ls.getLast? ≠ some []) :
    pySplitlines (joinN ls) = ls := by
  induction ls with
  | nil => exact absurd rfl hne
  | cons l rest ih =>
    cases rest with
    | nil =>
      have hl : l ≠ [] := by
        intro h
        exact hlast (by simp [h])
      exact pySplitlines_noSep (hsep l (List.mem_cons_self _ _)) hl
    | cons m rest2 =>
      rw [joinN_cons_of_ne_nil (by simp)]
      rw [pySplitlines_append (hsep l (List.mem_cons_self _ _))]
      rw [ih (fun l2 hl2 => hsep l2 (List.mem_cons_of_mem _ hl2)) (by simp)
        (by rwa [List.getLast?_cons_cons] at hlast)]

theorem mem_joinN {ls : List (List Char)} {c : Char} (h : c ∈ joinN ls) :
    (∃ l ∈ ls, c ∈ l) ∨ c = '\n' := by
  induction ls with
  | nil => simp [joinN] at h
  | cons l rest ih =>
    cases rest with
    | nil =>
      simp only [joinN] at h
      exact Or.inl ⟨l, List.mem_singleton_self _, h⟩
    | cons m rest2 =>
      rw [joinN_cons_of_ne_nil (by simp)] at h
      rcases List.mem_append.mp h with hm | hm
      · exact Or.inl ⟨l, List.mem_cons_self _ _, hm⟩
      · rcases List.mem_cons.mp hm with rfl | hm2
        · exact Or.inr rfl
        · rcases ih hm2 with ⟨l2, hl2, hc2⟩ | hn
          · exact Or.inl ⟨l2, List.mem_cons_of_mem _ hl2, hc2⟩
          · exact Or.inr hn

theorem noDS_joinN {ls : List (List Char)} (h : ∀ l ∈ ls, NoDS l) :
    NoDS (joinN ls) := by
  induction ls with
  | nil => simp [joinN, NoDS]
  | cons l rest ih =>
    cases rest with
    | nil => exact h l (List.mem_singleton_self _)
    | cons m rest2 =>
      rw [joinN_cons_of_ne_nil (by simp)]
      rw [NoDS, List.chain'_append]
      refine ⟨h l (List.mem_cons_self _ _), ?_, ?_⟩
      · rw [List.chain'_cons']
        refine ⟨?_, ih (fun l2 hl2 => h l2 (List.mem_cons_of_mem _ hl2))⟩
        intro y _ hy
        exact absurd hy.1 (by decide)
      · intro y _ z hz hc
        rw [List.head?_cons, Option.mem_some_iff] at hz
        subst hz
        exact absurd hc.2 (by decide)

theorem joinN_append_singleton {A : List (List Char)} (b : List Char)
    (hA : A ≠ []) : joinN (A ++ [b]) = joinN A ++ '\n' :: b := by
  induction A with
  | nil => exact absurd rfl hA
  | cons x A2 ih =>
    cases A2 with
    | nil => rfl
    | cons y A3 =>
      rw [List.cons_append, joinN_cons_of_ne_nil (by simp),
        joinN_cons_of_ne_nil (by simp), ih (by simp), List.append_assoc]
      rfl

theorem joinN_reverse (ls : List (List Char)) :
    (joinN ls).reverse = joinN ((ls.reverse).map List.reverse) := by
  induction ls with
  | nil => rfl
  | cons l rest ih =>
    cases rest with
    | nil => rfl
    | cons m rest2 =>
      have h1 : ((l :: m :: rest2).reverse).map List.reverse
          = (((m :: rest2).reverse).map List.reverse) ++ [l.reverse] := by
        simp
      rw [h1, joinN_append_singleton l.reverse (by simp), ← ih,
        joinN_cons_of_ne_nil (by simp)]
      simp

theorem dropWhile_joinN {ls : List (List Char)}
    (hh : ∀ l ∈ ls, ∀ c, l.head? = some c → isSpaceC c = false) :
    (joinN ls).dropWhile isSpaceC = joinN (ls.dropWhile List.isEmpty) := by
  induction ls with
  | nil => rfl
  | cons l rest ih =>
    have ih2 := ih (fun l2 hl2 => hh l2 (List.mem_cons_of_mem _ hl2))
    cases hl : l with
    | nil =>
      subst hl
      cases rest with
      | nil => rfl
      | cons m rest2 =>
        have hR : List.dropWhile List.isEmpty ([] :: m :: rest2)
            = List.dropWhile List.isEmpty (m :: rest2) := by
          rw [List.dropWhile_cons]
          simp
        rw [hR, joinN_cons_of_ne_nil (by simp), List.nil_append,
          List.dropWhile_cons, if_pos (by decide), ih2]
    | cons a t =>
      subst hl
      have ha : isSpaceC a = false :=
        hh (a :: t) (List.mem_cons_self _ _) a rfl
      have hR : List.dropWhile List.isEmpty ((a :: t) :: rest) = (a :: t) :: rest := by
        rw [List.dropWhile_cons]
        simp
      rw [hR]
      cases rest with
      | nil =>
        have e1 : joinN [a :: t] = a :: t := rfl
        rw [e1, List.dropWhile_cons, if_neg (by simp [ha])]
      | cons m rest2 =>
        rw [joinN_cons_of_ne_nil (by simp), List.cons_append,
          List.dropWhile_cons, if_neg (by simp [ha])]

theorem dropTrailing_joinN {ls : List (List Char)}
    (hl : ∀ l ∈ ls, ∀ c, l.getLast? = some c → isSpaceC c = false) :
    dropTrailing isSpaceC (joinN ls)
      = joinN (((ls.reverse).dropWhile List.isEmpty).reverse) := by
  have hh : ∀ l ∈ (ls.reverse).map List.reverse, ∀ c,
      l.head? = some c → isSpaceC c = false := by
    intro l hm c hc
    obtain ⟨x, hx, rfl⟩ := List.mem_map.mp hm
    rw [List.mem_reverse] at hx
    apply hl x hx
    rwa [List.head?_reverse] at hc
  unfold dropTrailing
  rw [joinN_reverse, dropWhile_joinN hh]
  have hmap : ((ls.reverse).map List.reverse).dropWhile List.isEmpty
      = ((ls.reverse).dropWhile List.isEmpty).map List.reverse := by
    rw [List.dropWhile_map]
    have hfun : (List.isEmpty ∘ List.reverse : List Char → Bool) = List.isEmpty := by
      funext x
      cases x with
      | nil => rfl
      | cons a t => simp [Function.comp]
    rw [hfun]
  rw [hmap, joinN_reverse]
  congr 1
  simp [List.map_reverse, List.map_map]

theorem pyStrip_joinN {ls : List (List Char)}
    (hfix : ∀ l ∈ ls, pyStrip l = l) :
    pyStrip (joinN ls) = joinN (trimEmp ls) := by
  have hh : ∀ l ∈ ls, ∀ c, l.head? = some c → isSpaceC c = false := by
    intro l hm c hc
    apply @pyStrip_head_not l
    rwa [hfix l hm]
  have hl2 : ∀ l ∈ ls.dropWhile List.isEmpty, ∀ c,
      l.getLast? = some c → isSpaceC c = false := by
    intro l hm c hc
    have hmem : l ∈ ls := (List.dropWhile_sublist _).subset hm
    apply @pyStrip_getLast_not l
    rwa [hfix l hmem]
  rw [pyStrip, dropWhile_joinN hh, dropTrailing_joinN hl2]
  rfl

theorem trimEmp_subset {ls : List (List Char)} {x : List Char}
    (h : x ∈ trimEmp ls) : x ∈ ls := by
  rw [trimEmp, List.mem_reverse] at h
  have h2 := (List.dropWhile_sublist _).subset h
  rw [List.mem_reverse] at h2
  exact (List.dropWhile_sublist _).subset h2

theorem lines_within {cs : List Char} : ∀ l ∈ pySplitlines cs, l <:+: cs := by
  rcases lines_structure cs with h | ⟨l0, ls0, heq, hpre, hinf⟩
  · rw [h]
    intro l hl
    exact absurd hl (List.not_mem_nil l)
  · rw [heq]
    intro l hl
    rcases List.mem_cons.mp hl with rfl | h2
    · exact hpre.isInfix
    · exact hinf l h2

theorem normL_fixed {p : List Char} (h : normedL p) : normL p = p := by
  obtain ⟨h1, h2, h3, h4, h5, h6, h7⟩ := h
  have hlast : p.getLast? ≠ some '\n' := by
    intro hl
    have hsp : isSpaceC '\n' = false := pyStrip_getLast_not (by rw [h7]; exact hl)
    exact absurd hsp (by decide)
  have hmap : (pySplitlines p).map pyStrip = pySplitlines p := by
    have e : (pySplitlines p).map pyStrip = (pySplitlines p).map id :=
      List.map_congr_left (fun l hl => h6 l hl)
    rw [e, List.map_id]
  rw [normL, removeZw_eq_self h1, crlf_eq_self h2, subRuns_eq_self h3 h4,
    hmap, joinN_pySplitlines h5 hlast, h7]

theorem normed_of_mid {mid : List Char}
    (hchar : ∀ c ∈ mid, isZwC c = false ∧ c ≠ '\t')
    (hds : NoDS mid) :
    normedL (pyStrip (joinN ((pySplitlines mid).map pyStrip))) := by
  have F1 := @lines_mem_noSep mid
  have F2 : ∀ l ∈ (pySplitlines mid).map pyStrip, pyStrip l = l := by
    intro l hl
    obtain ⟨l0, _, rfl⟩ := List.mem_map.mp hl
    exact pyStrip_idem l0
  have F4 : ∀ c ∈ pyStrip (joinN ((pySplitlines mid).map pyStrip)),
      c = '\n' ∨ (c ∈ mid ∧ isLineSepC c = false) := by
    intro c hc
    have hq := mem_pyStrip hc
    rcases mem_joinN hq with ⟨l, hl, hcl⟩ | rfl
    · obtain ⟨l0, hl0, rfl⟩ := List.mem_map.mp hl
      exact Or.inr (F1 l0 hl0 c (mem_pyStrip hcl))
    · exact Or.inl rfl
  refine ⟨?_, ?_, ?_, ?_, ?_, ?_, pyStrip_idem _⟩
  · intro c hc
    rcases F4 c hc with rfl | ⟨hm, _⟩
    · decide
    · exact (hchar c hm).1
  · intro hr
    rcases F4 _ hr with h | ⟨_, hsep⟩
    · exact absurd h (by decide)
    · exact absurd hsep (by decide)
  · intro ht
    rcases F4 _ ht with h | ⟨hm, _⟩
    · exact absurd h (by decide)
    · exact absurd rfl (hchar _ hm).2
  · apply chain'_of_within (pyStrip_within _)
    apply noDS_joinN
    intro l hl
    obtain ⟨l0, hl0, rfl⟩ := List.mem_map.mp hl
    exact chain'_of_within (pyStrip_within l0)
      (chain'_of_within (lines_within l0 hl0) hds)
  · intro c hc hsep
    rcases F4 c hc with rfl | ⟨_, hf⟩
    · rfl
    · rw [hsep] at hf
      cases hf
  · rw [pyStrip_joinN F2]
    by_cases hq : trimEmp ((pySplitlines mid).map pyStrip) = []
    · rw [hq]
      intro l hl
      exact absurd hl (List.not_mem_nil l)
    · have hsep2 : ∀ l ∈ trimEmp ((pySplitlines mid).map pyStrip),
          ∀ c ∈ l, isLineSepC c = false := by
        intro l hl c hc
        have hm := trimEmp_subset hl
        obtain ⟨l0, hl0, rfl⟩ := List.mem_map.mp hm
        exact (F1 l0 hl0 c (mem_pyStrip hc)).2
      have hlast2 : (trimEmp ((pySplitlines mid).map pyStrip)).getLast?
          ≠ some [] := by
        intro hcontra
        rw [trimEmp, ← List.head?_reverse, List.reverse_reverse] at hcontra
        have h3 := dropWhile_head_not hcontra
        simp at h3
      rw [pySplitlines_joinN hsep2 hq hlast2]
      intro l hl
      exact F2 l (trimEmp_subset hl)

theorem normL_normed (s : List Char) : normedL (normL s) := by
  have hds : NoDS (subRuns isHTC ' ' (crlf (removeZw s))) := by
    rw [subRuns]
    exact subRunsGo_chain _ false
  have hchar : ∀ c ∈ subRuns isHTC ' ' (crlf (removeZw s)),
      isZwC c = false ∧ c ≠ '\t' := by
    intro c hc
    rw [subRuns] at hc
    rcases mem_subRunsGo hc with ⟨hht, hmem⟩ | rfl
    · refine ⟨?_, ?_⟩
      · rcases mem_crlf hmem with h2 | rfl
        · exact (mem_removeZw h2).2
        · decide
      · intro hEq
        rw [hEq] at hht
        exact absurd hht (by decide)
    · exact ⟨by decide, by decide⟩
  rw [normL]
  exact normed_of_mid hchar hds

theorem normL_idem (s : List Char) : normL (normL s) = normL s :=
  normL_fixed (normL_normed s)

/-- C9: the text normalizer is idempotent: for every string `s`,
`norm (norm s) = norm s`. -/
theorem c9_norm_idempotent (s : String) : norm (norm s) = norm s :=
  congrArg ofL (normL_idem s.data)

/-- C3: `extract_privacy` returns `""` on every input: `is_noise`
classifies every line matching the privacy pattern as noise, and the
pre-filter removes noise lines, so the subsequent scan never finds a match. -/
theorem c3_extract_privacy_always_empty (text : String) :
    extract_privacy text = "" := by
  rw [extract_privacy]
  have hfind : ((pySplitlines (normL text.data)).filter
      (fun l => !is_noiseL l)).find? privacyMatch = none := by
    rw [List.find?_eq_none]
    intro l hl hp
    have hmem := List.mem_filter.mp hl
    have hnoise : is_noiseL l = false := by simpa using hmem.2
    have hfix : pyStrip l = l :=
      (normL_normed text.data).2.2.2.2.2.1 l hmem.1
    simp only [is_noiseL, hfix] at hnoise
    split_ifs at hnoise
    rw [hp] at hnoise
    cases hnoise
  rw [hfind]

end CVParser
